/-
Verification of the T7 runtime-support layer (tronkko/t7).

Shallow embedding of the C sources in Lean 4:
  * exit-handler.c     : priority-ordered process-exit callback registry
  * allocator.c        : application-facing allocate/resize wrappers
  * tls.c              : failure-simulation harness (simulate_failure, repeat_test)
  * static-allocator.c : boundary-tagged arena allocator over a fixed buffer

Machine pointers are modelled as byte offsets (Nat); the fixed buffer is a
function from byte offsets to stored values; `size_t` header words are Nat.
Loops of the C code that are only guaranteed to terminate under the heap
invariant are embedded with an explicit fuel parameter and return `Option`,
`none` marking fuel exhaustion; theorems show the fuel is never exhausted in
the situations the claims describe.  Assertions compiled out under NDEBUG
(including debug pattern fills) are not part of the model.
-/
import Mathlib

namespace T7

/- ------------------------------------------------------------------ -/
/- exit-handler.c                                                      -/
/- ------------------------------------------------------------------ -/

/-- Entry of the exit-handler table: function pointer (modelled as a numeric
identity, 0 playing the role of NULL) plus an integer priority. -/
structure ExitHandler where
  f : Nat
  priority : Int
  deriving Repr, DecidableEq

/-- Capacity of the handler table (`T7_MAX_EXIT_HANDLERS`, default 50). -/
def T7_MAX_EXIT_HANDLERS : Nat := 50

/-- Embeds `is_registered` of exit-handler.c: scan for a matching function. -/
def is_registered (hs : List ExitHandler) (f : Nat) : Bool :=
  hs.any (fun h => h.f == f)

/-- Embeds `add_exit_handler` of exit-handler.c.  The insertion index is the
number of leading entries with strictly greater priority (the C loop
`while (i < count && priority < handlers[i].priority) i++`), so a new handler
is placed before existing entries of equal priority.  `none` models the
`terminate` call on table overflow; `some (hs, ok)` returns the new table and
the C return value. -/
def add_exit_handler (hs : List ExitHandler) (f : Nat) (priority : Int) :
    Option (List ExitHandler × Bool) :=
  if ¬ is_registered hs f ∧ hs.length < T7_MAX_EXIT_HANDLERS then
    let pre := hs.takeWhile (fun h => priority < h.priority)
    let post := hs.dropWhile (fun h => priority < h.priority)
    some (pre ++ ⟨f, priority⟩ :: post, true)
  else if hs.length < T7_MAX_EXIT_HANDLERS then
    some (hs, false)
  else
    none

/-- Embeds `run_exit_handlers` of exit-handler.c: the identities invoked, in
table order, skipping NULL entries. -/
def run_exit_handlers (hs : List ExitHandler) : List Nat :=
  (hs.filter (fun h => h.f ≠ 0)).map (fun h => h.f)

/-- Registers a whole list of (function, priority) pairs in order, starting
from an empty table. -/
def register_all (l : List (Nat × Int)) : Option (List ExitHandler) :=
  l.foldl
    (fun acc fp => acc.bind (fun hs => (add_exit_handler hs fp.1 fp.2).map Prod.fst))
    (some [])

/- ------------------------------------------------------------------ -/
/- allocator.c : application-facing wrappers                           -/
/- ------------------------------------------------------------------ -/

/-- Capability table of an allocator (`allocator_type_t` / vtable), over an
abstract allocator-state type.  Pointers are `Nat`, a returned `none` models a
NULL result, and the argument pointer of the wrapper layer is `Option Nat`
(`none` = NULL). -/
structure AllocatorVtable (σ : Type) where
  grab : σ → Nat → σ × Option Nat
  release : σ → Nat → σ
  resize : σ → Nat → Nat → σ × Option Nat

/-- Embeds `allocator_allocate_memory` of allocator.c: a request of 0 bytes
returns NULL without consulting the allocator; otherwise dispatch to `grab`. -/
def allocator_allocate_memory {σ : Type} (vt : AllocatorVtable σ) (s : σ)
    (n : Nat) : σ × Option Nat :=
  if n ≠ 0 then vt.grab s n else (s, none)

/-- Embeds `allocator_resize_memory` of allocator.c: NULL pointer and nonzero
size acts as a fresh allocation, non-NULL pointer and zero size acts as a
release returning NULL, NULL with zero size is a no-op. -/
def allocator_resize_memory {σ : Type} (vt : AllocatorVtable σ) (s : σ)
    (p : Option Nat) (n : Nat) : σ × Option Nat :=
  match p with
  | some q =>
    if n ≠ 0 then vt.resize s q n
    else (vt.release s q, none)
  | none =>
    if n ≠ 0 then vt.grab s n
    else (s, none)

/- ------------------------------------------------------------------ -/
/- tls.c : failure-simulation harness                                  -/
/- ------------------------------------------------------------------ -/

/-- Ceiling on simulate_failure calls per execution (`MAX_RECURSION`). -/
def MAX_RECURSION : Nat := 1024

/-- Embeds `test_frame_t` of tls.c: `triggered` flag, call counter, and the
bit vector of simulated failures.  The C array holds `MAX_RECURSION/8+1`
bytes but only bits below `MAX_RECURSION` are ever read or written. -/
structure TestFrame where
  triggered : Bool
  count : Nat
  simulate : Nat → Bool

/-- Embeds `simulate_failure` of tls.c in the active-frame case: consult the
bit at the current counter, increment the counter, set `triggered` on a hit.
`none` models the `terminate` call when the call ceiling is exceeded. -/
def simulate_failure (fp : TestFrame) : Option (Bool × TestFrame) :=
  if fp.count < MAX_RECURSION then
    if fp.simulate fp.count then
      some (true, { fp with triggered := true, count := fp.count + 1 })
    else
      some (false, { fp with count := fp.count + 1 })
  else
    none

/-- A deterministic test function whose only interaction with the harness is
calling `simulate_failure`: a decision tree branching on each reported
outcome and finally returning a pass/fail boolean. -/
inductive TestFn where
  | ret (ok : Bool)
  | call (onFail onOk : TestFn)

/-- Runs a test function against a frame: each `call` consults
`simulate_failure` and branches on the reported outcome. -/
def runTest : TestFn → TestFrame → Option (Bool × TestFrame)
  | .ret ok, fp => some (ok, fp)
  | .call onFail onOk, fp =>
    match simulate_failure fp with
    | none => none
    | some (true, fp1) => runTest onFail fp1
    | some (false, fp1) => runTest onOk fp1

/-- Embeds the scan `i = frame.count - 1; while (_getbit(&frame,i) == 0) i--;`
of repeat_test: the highest index `≤ i` whose bit is set.  (The C code relies
on at least one consulted bit being set; like the C loop, the scan stops at
index 0.) -/
def findLastSet (fp : TestFrame) : Nat → Nat
  | 0 => 0
  | i + 1 => if fp.simulate (i + 1) then i + 1 else findLastSet fp i

/-- Embeds `_setbit(&frame, i++, 0)` followed by
`while (i < MAX_RECURSION) _setbit(&frame, i++, 1)` of repeat_test: clear the
bit at `i`, set every higher bit below the ceiling. -/
def clearAndRaise (fp : TestFrame) (i : Nat) : TestFrame :=
  { fp with
    simulate := fun j =>
      if j = i then false
      else if i < j ∧ j < MAX_RECURSION then true
      else fp.simulate j }

/-- Embeds the `do { ... } while (1)` loop of `repeat_test`, instrumented with
the number of invocations of the test function so far.  `fuel` bounds the
number of iterations of the embedding; `none` is returned on fuel exhaustion
or when `simulate_failure` would terminate the process. -/
def repeatLoop (f : TestFn) : Nat → TestFrame → Nat → Option (Bool × Nat)
  | 0, _, _ => none
  | fuel + 1, fp, m =>
    match runTest f { fp with triggered := false, count := 0 } with
    | none => none
    | some (ok, fp1) =>
      if fp1.triggered then
        repeatLoop f fuel (clearAndRaise fp1 (findLastSet fp1 (fp1.count - 1))) (m + 1)
      else
        some (ok, m + 1)

/-- The frame `repeat_test` publishes: counter zero, nothing triggered, every
bit of the simulation vector set. -/
def initFrame : TestFrame :=
  { triggered := false, count := 0, simulate := fun _ => true }

/-- Embeds `repeat_test` of tls.c, returning the final result of the test
function together with the number of times it was invoked. -/
def repeat_test (f : TestFn) (fuel : Nat) : Option (Bool × Nat) :=
  repeatLoop f fuel initFrame 0

/-- The test function that succeeds if and only if its first `k` calls to
`simulate_failure` all report "do not fail", returning failure as soon as any
call reports "fail". -/
def chain : Nat → TestFn
  | 0 => .ret true
  | k + 1 => .call (.ret false) (chain k)

/-- True of a test function that never returns success, whatever the reported
outcomes are. -/
def neverSucceeds : TestFn → Bool
  | .ret ok => !ok
  | .call onFail onOk => neverSucceeds onFail && neverSucceeds onOk

/-- Bit vector whose bits at indices `≥ j` are set and whose bits below `j`
are clear: the simulation vector at the start of iteration `j` of
`repeat_test` for a test function of the `chain` family. -/
def bitsGE (j : Nat) : Nat → Bool := fun idx => decide (j ≤ idx)

/- ------------------------------------------------------------------ -/
/- static-allocator.c : boundary-tagged arena allocator                -/
/- ------------------------------------------------------------------ -/

/-- Size of `struct static_node` (a single `size_t`): 8 bytes on the 64-bit
platform the model fixes. -/
def W : Nat := 8

/-- State of `struct static_allocator`: total buffer size, buffer contents
and the `start` cursor (byte offset of the node where the next search
begins).  `buf o` holds, at an offset `o` where a node header lives, the
packed size/allocated `size_t` word; at payload offsets it holds the payload
byte. -/
structure StaticAllocator where
  size : Nat
  buf : Nat → Nat
  start : Nat

/-- C `v & ~1u`: the header word with the allocated flag masked off. -/
def maskFree (v : Nat) : Nat := v - v % 2

/-- C `v | 1`: the header word with the allocated flag set. -/
def maskAlloc (v : Nat) : Nat := maskFree v + 1

/-- Embeds `is_free` of static-allocator.c: the low bit of the header word
is clear. -/
def is_free (v : Nat) : Bool := v % 2 == 0

/-- Stores a header word at a byte offset of the buffer. -/
def writeHdr (s : StaticAllocator) (o v : Nat) : StaticAllocator :=
  { s with buf := fun i => if i = o then v else s.buf i }

/-- Embeds `roundup` of static-allocator.c: round a request up so the node
payload is word-aligned and room for a header remains
(`sizeof(static_node)*2` for small requests, otherwise
`sizeof(static_node) + ((n + 7u) & ~7u)`). -/
def roundup (n : Nat) : Nat :=
  if n < W then 2 * W
  else W + ((n + 7) / 8) * 8

/-- Embeds `get_successor` of static-allocator.c: the node following `o`,
wrapping from the end of the buffer to its beginning. -/
def get_successor (s : StaticAllocator) (o : Nat) : Nat :=
  let next := o + maskFree (s.buf o)
  if next = s.size then 0 else next

/-- Embeds the merge loop shared by `get_size` and `static_resize_memory`:
`while (next != end && (next->size & 1u) == 0) { nodesize += next->size; ... }`.
`fuel` bounds the embedded iteration count; `none` marks exhaustion (the C
loop terminates under the heap invariant, which the theorems establish). -/
def mergeSize (s : StaticAllocator) (o : Nat) : Nat → Nat → Option Nat
  | 0, _ => none
  | fuel + 1, nodesize =>
    let next := o + nodesize
    if next ≠ s.size ∧ is_free (s.buf next) then
      mergeSize s o fuel (nodesize + s.buf next)
    else
      some nodesize

/-- Embeds `get_size` of static-allocator.c: for an allocated node the
stored size with the flag removed; for a free node, lazily coalesce the
following free nodes into it, store the merged size, and reposition the
`start` cursor past the merged range if it was swallowed by the merge. -/
def get_size (s : StaticAllocator) (o : Nat) : Option (Nat × StaticAllocator) :=
  if ¬ is_free (s.buf o) then
    some (s.buf o - 1, s)
  else
    match mergeSize s o (s.size + 1) (s.buf o) with
    | none => none
    | some nodesize =>
      let s1 := writeHdr s o nodesize
      let next := o + nodesize
      let s2 :=
        if o < s1.start ∧ s1.start < next then
          if next ≠ s1.size then { s1 with start := next }
          else { s1 with start := 0 }
        else s1
      some (nodesize, s2)

/-- Embeds `allocate_node` of static-allocator.c: mark `new_size` bytes of
the free node at `o` allocated, splitting off the excess as a fresh free
node, and point `start` at the consumed node.  Returns the new state and the
pointer past the header (`&node[1]`). -/
def allocate_node (s : StaticAllocator) (o new_size : Nat) :
    StaticAllocator × Nat :=
  let nodesize := s.buf o
  if new_size < nodesize then
    let s1 := writeHdr s o (maskAlloc new_size)
    let s2 := writeHdr s1 (o + new_size) (nodesize - new_size)
    ({ s2 with start := o }, o + W)
  else
    let s1 := writeHdr s o (maskAlloc nodesize)
    ({ s1 with start := o }, o + W)

/-- Embeds the `do ... while (node != map->start)` search loop of
`static_grab_memory`, structurally on a fuel bound; `none` marks fuel
exhaustion (never reached from a well-formed state, by the termination
theorem).  `some (s, none)` is the NULL return. -/
def grabLoop : Nat → StaticAllocator → Nat → Nat →
    Option (StaticAllocator × Option Nat)
  | 0, _, _, _ => none
  | fuel + 1, s, new_size, node =>
    if is_free (s.buf node) then
      match get_size s node with
      | none => none
      | some (sz, s1) =>
        if new_size ≤ sz then
          let r := allocate_node s1 node new_size
          some (r.1, some r.2)
        else
          let node1 := get_successor s1 node
          if node1 = s1.start then some (s1, none)
          else grabLoop fuel s1 new_size node1
    else
      let node1 := get_successor s node
      if node1 = s.start then some (s, none)
      else grabLoop fuel s new_size node1

/-- Embeds `static_grab_memory` of static-allocator.c (current version):
round the request up and scan the circular node sequence from `start`.  The
fuel `size + 2` dominates the number of loop iterations possible from a
well-formed state. -/
def static_grab_memory (s : StaticAllocator) (n : Nat) :
    Option (StaticAllocator × Option Nat) :=
  grabLoop (s.size + 2) s (roundup n) s.start

/-- Embeds `static_release_memory` of static-allocator.c: clear the
allocated bit of the node whose payload starts at `p`, and rewind `start` to
it if it precedes the current cursor. -/
def static_release_memory (s : StaticAllocator) (p : Nat) : StaticAllocator :=
  let node := p - W
  let s1 := writeHdr s node (maskFree (s.buf node))
  if node < s1.start then { s1 with start := node } else s1

/-- Embeds `copy_memory` as used by `relocate_node`: copy `len` payload bytes
from offset `src` to offset `dst` (the regions relocation copies between are
disjoint, so the simultaneous copy agrees with `memcpy`). -/
def copy_memory (s : StaticAllocator) (dst src len : Nat) : StaticAllocator :=
  { s with
    buf := fun i =>
      if dst ≤ i ∧ i < dst + len then s.buf (src + (i - dst)) else s.buf i }

/-- Embeds `relocate_node` of static-allocator.c: grab a fresh region of `n`
bytes, copy the old payload (bounded by the old usable size), release the
old node and return the new pointer; on grab failure return NULL with the
old node untouched. -/
def relocate_node (s : StaticAllocator) (node n : Nat) :
    Option (StaticAllocator × Option Nat) :=
  let sz := maskFree (s.buf node) - W
  let p := node + W
  match static_grab_memory s n with
  | none => none
  | some (s1, none) => some (s1, none)
  | some (s1, some q) =>
    let s2 := copy_memory s1 q p sz
    let s3 := static_release_memory s2 p
    some (s3, some q)

/-- Embeds `static_resize_memory` of static-allocator.c: compute the node
size merged with immediately following free nodes; if the merged region
satisfies the rounded request, combine and allocate in place, else relocate. -/
def static_resize_memory (s : StaticAllocator) (p n : Nat) :
    Option (StaticAllocator × Option Nat) :=
  let new_size := roundup n
  let node := p - W
  match mergeSize s node (s.size + 1) (maskFree (s.buf node)) with
  | none => none
  | some available =>
    if new_size ≤ available then
      let s1 := writeHdr s node available
      let r := allocate_node s1 node new_size
      some (r.1, some r.2)
    else
      relocate_node s node n

/-- Embeds `create_static_allocator_with_buffer` of static-allocator.c
(NDEBUG build): lay a single free node spanning the whole buffer at its
beginning and start the search there. -/
def create_static_allocator_with_buffer (buf0 : Nat → Nat) (size : Nat) :
    StaticAllocator :=
  writeHdr { size := size, buf := buf0, start := 0 } 0 size

/-- Walks the node sequence of the buffer from offset `o`: the list of node
offsets, provided every node has a header-aligned nonzero size and the last
node ends exactly at the end of the buffer; `none` otherwise (or on fuel
exhaustion, impossible for fuel above `size`). -/
def walk (s : StaticAllocator) : Nat → Nat → Option (List Nat)
  | 0, o => if o = s.size then some [] else none
  | fuel + 1, o =>
    if o = s.size then some []
    else if o < s.size ∧ W ≤ maskFree (s.buf o) ∧ maskFree (s.buf o) % W = 0 then
      match walk s fuel (o + maskFree (s.buf o)) with
      | none => none
      | some l => some (o :: l)
    else none

/-- The node offsets of the arena, from the beginning of the buffer. -/
def nodes (s : StaticAllocator) : Option (List Nat) :=
  walk s (s.size + 1) 0

/-- Decidable well-formedness: the buffer is exactly partitioned into nodes
whose masked sizes are nonzero multiples of the header size, and the `start`
cursor points at one of them. -/
def wfb (s : StaticAllocator) : Bool :=
  match nodes s with
  | some l => s.start ∈ l
  | none => false

/-- Well-formedness of an arena state. -/
def wf (s : StaticAllocator) : Prop := wfb s = true

/-- The offsets of currently allocated (live) nodes. -/
def liveNodes (s : StaticAllocator) : List Nat :=
  match nodes s with
  | some l => l.filter (fun o => ¬ is_free (s.buf o))
  | none => []

/-- A fresh 64-byte arena over a zeroed buffer, used by the concrete witness
instances. -/
def exampleArena : StaticAllocator :=
  create_static_allocator_with_buffer (fun _ => 0) 64

/-- A 64-byte arena holding two allocated 16-byte nodes followed by one free
32-byte node, search cursor on the free node; used by the concrete witness
instances. -/
def exampleArena2 : StaticAllocator :=
  ⟨64,
   fun i => if i = 0 then 17 else if i = 16 then 17 else if i = 32 then 32 else 0,
   32⟩

/-- The arena state after grabbing one byte from `exampleArena`. -/
def exampleGrabState : StaticAllocator :=
  ((static_grab_memory exampleArena 1).getD (exampleArena, none)).1

/-- The arena state after resizing the first region of `exampleArena2` to 4
bytes (satisfied in place). -/
def exampleResizeState : StaticAllocator :=
  ((static_resize_memory exampleArena2 8 4).getD (exampleArena2, none)).1

/-- The arena state after a failing resize of the first region of
`exampleArena2` to 100 bytes (relocation fails: the arena is exhausted). -/
def exampleResizeFailState : StaticAllocator :=
  ((static_resize_memory exampleArena2 8 100).getD (exampleArena2, none)).1

/-- Frame relation between two arena states: the buffer size is unchanged and
every node allocated in the first state survives in the second with its
header word and payload bytes untouched. -/
def Preserves (s0 s1 : StaticAllocator) : Prop :=
  s1.size = s0.size ∧
  ∃ l0 l1, nodes s0 = some l0 ∧ nodes s1 = some l1 ∧
    (∀ x ∈ l0, is_free (s0.buf x) = false →
      x ∈ l1 ∧ ∀ i, x ≤ i → i < x + maskFree (s0.buf x) → s1.buf i = s0.buf i)

/-- Strengthening of `Preserves` holding at every intermediate state of the
grab scan (before the final allocation): node boundaries only coarsen (lazy
coalescing removes boundaries, never adds them) and free nodes stay free. -/
def Evolves (s0 s1 : StaticAllocator) : Prop :=
  Preserves s0 s1 ∧
  ∃ l0 l1, nodes s0 = some l0 ∧ nodes s1 = some l1 ∧
    (∀ x ∈ l1, x ∈ l0) ∧
    (∀ x ∈ l1, is_free (s0.buf x) = true → is_free (s1.buf x) = true)

end T7

namespace T7Old

/- ------------------------------------------------------------------ -/
/- Older revision of static_grab_memory (double-scan loop)             -/
/- ------------------------------------------------------------------ -/

/-- Embeds the `while (1)` scan of the older revision of
`static_grab_memory` (the one whose source documents the "scan fully twice
before declaring exhaustion" heuristic).  This revision computes the
coalesced size of a free run only transiently and writes headers only on
success; `count` is the C variable counting how many times the scan reached
the end of the table, returned with the result.  `none` marks fuel
exhaustion of the embedding. -/
def grabLoop : Nat → T7.StaticAllocator → Nat → Nat → Nat →
    Option (T7.StaticAllocator × Option Nat × Nat)
  | 0, _, _, _, _ => none
  | fuel + 1, s, alloc_bytes, node, count =>
    let v := s.buf node
    let status := v % 2
    match
      (if status = 0 then T7.mergeSize s node (s.size + 1) (T7.maskFree v)
       else some (T7.maskFree v)) with
    | none => none
    | some nodesize =>
      if status = 0 ∧ alloc_bytes ≤ nodesize then
        let next := node + alloc_bytes
        if next ≠ s.size ∧ alloc_bytes < nodesize then
          let s1 := T7.writeHdr s node (T7.maskAlloc alloc_bytes)
          let s2 := T7.writeHdr s1 next (nodesize - alloc_bytes)
          some ({ s2 with start := node }, some (node + T7.W), count)
        else
          let s1 := T7.writeHdr s node (T7.maskAlloc nodesize)
          some ({ s1 with start := node }, some (node + T7.W), count)
      else
        let next := node + nodesize
        if next ≠ s.size then
          grabLoop fuel s alloc_bytes next count
        else if count = 0 then
          grabLoop fuel s alloc_bytes 0 (count + 1)
        else
          some (s, none, count)

/-- Embeds the older `static_grab_memory`: round the request up (same
computation as `roundup`) and scan from `start`, reaching the end of the
table at most twice. -/
def static_grab_memory (s : T7.StaticAllocator) (n : Nat) :
    Option (T7.StaticAllocator × Option Nat × Nat) :=
  grabLoop (2 * s.size + 3) s (T7.roundup n) s.start 0

end T7Old

/- ------------------------------------------------------------------ -/
/- Claim theorems for the exit handlers and the wrapper layer          -/
/- ------------------------------------------------------------------ -/

/-- Claim C7: registering exit handlers 1..5 with priorities 0, 0, 1, 99999,
100 in that order produces the invocation order 4 (priority 99999), 5
(priority 100), 3 (priority 1), 2 (priority 0, registered later), 1
(priority 0, registered first): the table is kept sorted by descending
priority, ties broken most-recently-registered first. -/
theorem exit_handler_order_C7 :
    (T7.register_all [(1, 0), (2, 0), (3, 1), (4, 99999), (5, 100)]).map
      T7.run_exit_handlers = some [4, 5, 3, 2, 1] := by
  decide

/-- Claim C8: at the wrapper layer, for every allocator capability table: an
allocation of 0 bytes returns NULL leaving the allocator state untouched
(grab is not dispatched); a resize of a NULL pointer to nonzero n is exactly
a grab of n bytes; a resize of a non-NULL pointer to zero size is exactly a
release returning NULL. -/
theorem allocator_wrapper_edge_cases_C8 {σ : Type} (vt : T7.AllocatorVtable σ)
    (s : σ) (q n : Nat) (hn : n ≠ 0) :
    T7.allocator_allocate_memory vt s 0 = (s, none) ∧
    T7.allocator_resize_memory vt s none n = vt.grab s n ∧
    T7.allocator_resize_memory vt s (some q) 0 = (vt.release s q, none) := by
  refine ⟨rfl, ?_, rfl⟩
  simp [T7.allocator_resize_memory, hn]

/-- Witness for C8: the wrapper edge cases evaluated on a concrete allocator
over a unit state at n = 1. -/
theorem allocator_wrapper_edge_cases_C8_witness :
    T7.allocator_allocate_memory
      (⟨fun s n => (s, some n), fun s _ => s, fun s _ n => (s, some n)⟩ :
        T7.AllocatorVtable Nat) 7 0 = (7, none) ∧
    T7.allocator_resize_memory
      (⟨fun s n => (s, some n), fun s _ => s, fun s _ n => (s, some n)⟩ :
        T7.AllocatorVtable Nat) 7 none 1 = (7, some 1) ∧
    T7.allocator_resize_memory
      (⟨fun s n => (s, some n), fun s _ => s, fun s _ n => (s, some n)⟩ :
        T7.AllocatorVtable Nat) 7 (some 3) 0 = (7, none) :=
  allocator_wrapper_edge_cases_C8
    (⟨fun s n => (s, some n), fun s _ => s, fun s _ n => (s, some n)⟩ :
      T7.AllocatorVtable Nat) 7 3 1 (by decide)

/- ------------------------------------------------------------------ -/
/- Helper lemmas for the failure-simulation harness                    -/
/- ------------------------------------------------------------------ -/

theorem chain_run_fail (j : Nat) (hj : j < T7.MAX_RECURSION) :
    ∀ (m c : Nat) (tr : Bool), c ≤ j → j < c + m →
    T7.runTest (T7.chain m) (T7.TestFrame.mk tr c (T7.bitsGE j)) =
      some (false, T7.TestFrame.mk true (j + 1) (T7.bitsGE j)) := by
  intro m
  induction m with
  | zero => intro c tr h1 h2; omega
  | succ m ih =>
    intro c tr h1 h2
    by_cases hc : c = j
    · have hsf : T7.simulate_failure (T7.TestFrame.mk tr c (T7.bitsGE j)) =
          some (true, T7.TestFrame.mk true (c + 1) (T7.bitsGE j)) := by
        rw [T7.simulate_failure]
        simp only [if_pos (show c < T7.MAX_RECURSION by omega)]
        simp [T7.bitsGE, hc]
      rw [T7.chain]
      simp only [T7.runTest, hsf]
      rw [hc]
    · have hsf : T7.simulate_failure (T7.TestFrame.mk tr c (T7.bitsGE j)) =
          some (false, T7.TestFrame.mk tr (c + 1) (T7.bitsGE j)) := by
        rw [T7.simulate_failure]
        simp only [if_pos (show c < T7.MAX_RECURSION by omega)]
        simp [T7.bitsGE, show ¬ j ≤ c by omega]
      rw [T7.chain]
      simp only [T7.runTest, hsf]
      exact ih (c + 1) tr (by omega) (by omega)

theorem chain_run_ok (j : Nat) (hj : j ≤ T7.MAX_RECURSION) :
    ∀ (m c : Nat) (tr : Bool), c + m ≤ j →
    T7.runTest (T7.chain m) (T7.TestFrame.mk tr c (T7.bitsGE j)) =
      some (true, T7.TestFrame.mk tr (c + m) (T7.bitsGE j)) := by
  intro m
  induction m with
  | zero => intro c tr h1; rw [T7.chain]; simp [T7.runTest]
  | succ m ih =>
    intro c tr h1
    have hsf : T7.simulate_failure (T7.TestFrame.mk tr c (T7.bitsGE j)) =
        some (false, T7.TestFrame.mk tr (c + 1) (T7.bitsGE j)) := by
      rw [T7.simulate_failure]
      simp only [if_pos (show c < T7.MAX_RECURSION by omega)]
      simp [T7.bitsGE, show ¬ j ≤ c by omega]
    rw [T7.chain]
    simp only [T7.runTest, hsf]
    rw [ih (c + 1) tr (by omega)]
    have he : c + 1 + m = c + (m + 1) := by omega
    rw [he]

theorem clearAndRaise_bitsGE (tr : Bool) (c j : Nat) (hj : j < T7.MAX_RECURSION) :
    T7.clearAndRaise (T7.TestFrame.mk tr c (T7.bitsGE j)) j =
      T7.TestFrame.mk tr c (T7.bitsGE (j + 1)) := by
  rw [T7.clearAndRaise]
  simp only [T7.TestFrame.mk.injEq, true_and]
  funext idx
  by_cases h1 : idx = j
  · simp [h1, T7.bitsGE]
  · by_cases h2 : j < idx ∧ idx < T7.MAX_RECURSION
    · simp only [if_neg h1, if_pos h2, T7.bitsGE]
      have h3 : j + 1 ≤ idx := by omega
      simp [h3]
    · simp only [if_neg h1, if_neg h2, T7.bitsGE]
      congr 1
      simp only [eq_iff_iff]
      omega

theorem findLastSet_self (fp : T7.TestFrame) (j : Nat) (h : fp.simulate j = true) :
    T7.findLastSet fp j = j := by
  cases j with
  | zero => rfl
  | succ i => rw [T7.findLastSet, if_pos h]

theorem repeatLoop_succ (f : T7.TestFn) (fuel : Nat) (fp : T7.TestFrame) (m : Nat) :
    T7.repeatLoop f (fuel + 1) fp m =
      match T7.runTest f { fp with triggered := false, count := 0 } with
      | none => none
      | some (ok, fp1) =>
        if fp1.triggered then
          T7.repeatLoop f fuel
            (T7.clearAndRaise fp1 (T7.findLastSet fp1 (fp1.count - 1))) (m + 1)
        else some (ok, m + 1) := rfl

theorem repeatLoop_chain (k : Nat) (hk : k ≤ T7.MAX_RECURSION) :
    ∀ (d j m : Nat) (fp : T7.TestFrame), fp.simulate = T7.bitsGE j → j + d = k →
    T7.repeatLoop (T7.chain k) (d + 1) fp m = some (true, m + (d + 1)) := by
  intro d
  induction d with
  | zero =>
    intro j m fp hfp hj
    have hreset : ({ fp with triggered := false, count := 0 } : T7.TestFrame) =
        T7.TestFrame.mk false 0 (T7.bitsGE j) := by
      cases fp; simp_all
    rw [repeatLoop_succ]
    have hrun : T7.runTest (T7.chain k) ({ fp with triggered := false, count := 0 }) =
        some (true, T7.TestFrame.mk false (0 + k) (T7.bitsGE j)) := by
      rw [hreset]
      exact chain_run_ok j (by omega) k 0 false (by omega)
    rw [hrun]
    simp
  | succ d ih =>
    intro j m fp hfp hj
    have hjlt : j < T7.MAX_RECURSION := by omega
    have hreset : ({ fp with triggered := false, count := 0 } : T7.TestFrame) =
        T7.TestFrame.mk false 0 (T7.bitsGE j) := by
      cases fp; simp_all
    rw [repeatLoop_succ]
    have hrun : T7.runTest (T7.chain k) ({ fp with triggered := false, count := 0 }) =
        some (false, T7.TestFrame.mk true (j + 1) (T7.bitsGE j)) := by
      rw [hreset]
      exact chain_run_fail j hjlt k 0 false (by omega) (by omega)
    rw [hrun]
    have hfind : T7.findLastSet (T7.TestFrame.mk true (j + 1) (T7.bitsGE j)) (j + 1 - 1) = j := by
      have he : j + 1 - 1 = j := by omega
      rw [he]
      exact findLastSet_self _ j (by simp [T7.bitsGE])
    dsimp only
    rw [if_pos rfl, hfind, clearAndRaise_bitsGE true (j + 1) j hjlt]
    rw [ih (j + 1) (m + 1) (T7.TestFrame.mk true (j + 1) (T7.bitsGE (j + 1))) rfl (by omega)]
    have he2 : m + 1 + (d + 1) = m + (d + 1 + 1) := by omega
    rw [he2]

theorem chain_run_ceiling :
    ∀ (m c : Nat) (tr : Bool), c ≤ T7.MAX_RECURSION → T7.MAX_RECURSION < c + m →
    T7.runTest (T7.chain m) (T7.TestFrame.mk tr c (T7.bitsGE T7.MAX_RECURSION)) = none := by
  intro m
  induction m with
  | zero => intro c tr h1 h2; omega
  | succ m ih =>
    intro c tr h1 h2
    by_cases hc : c < T7.MAX_RECURSION
    · have hsf : T7.simulate_failure (T7.TestFrame.mk tr c (T7.bitsGE T7.MAX_RECURSION)) =
          some (false, T7.TestFrame.mk tr (c + 1) (T7.bitsGE T7.MAX_RECURSION)) := by
        rw [T7.simulate_failure]
        simp only [if_pos hc]
        simp [T7.bitsGE, show ¬ T7.MAX_RECURSION ≤ c by omega]
      rw [T7.chain]
      simp only [T7.runTest, hsf]
      exact ih (c + 1) tr (by omega) (by omega)
    · have hsf : T7.simulate_failure (T7.TestFrame.mk tr c (T7.bitsGE T7.MAX_RECURSION)) =
          none := by
        rw [T7.simulate_failure]
        simp [hc]
      rw [T7.chain]
      simp only [T7.runTest, hsf]

theorem repeatLoop_chain_over_ceiling (k : Nat) (hk : T7.MAX_RECURSION < k) :
    ∀ (fuel j m : Nat) (fp : T7.TestFrame), fp.simulate = T7.bitsGE j →
    j ≤ T7.MAX_RECURSION →
    T7.repeatLoop (T7.chain k) fuel fp m = none := by
  intro fuel
  induction fuel with
  | zero => intro j m fp hfp hj; rfl
  | succ fuel ih =>
    intro j m fp hfp hj
    have hreset : ({ fp with triggered := false, count := 0 } : T7.TestFrame) =
        T7.TestFrame.mk false 0 (T7.bitsGE j) := by
      cases fp; simp_all
    by_cases hjm : j = T7.MAX_RECURSION
    · subst hjm
      simp only [T7.repeatLoop, hreset]
      rw [chain_run_ceiling k 0 false (by omega) (by omega)]
    · have hjlt : j < T7.MAX_RECURSION := by omega
      simp only [T7.repeatLoop, hreset]
      rw [chain_run_fail j hjlt k 0 false (by omega) (by omega)]
      simp only [if_pos rfl]
      have hfind : T7.findLastSet (T7.TestFrame.mk true (j + 1) (T7.bitsGE j)) (j + 1 - 1) = j := by
        have he : j + 1 - 1 = j := by omega
        rw [he]
        exact findLastSet_self _ j (by simp [T7.bitsGE])
      rw [hfind, clearAndRaise_bitsGE true (j + 1) j hjlt]
      exact ih (j + 1) (m + 1) _ rfl (by omega)

theorem runTest_false_of_neverSucceeds :
    ∀ (f : T7.TestFn) (fp : T7.TestFrame) (ok : Bool) (fp1 : T7.TestFrame),
    T7.neverSucceeds f = true → T7.runTest f fp = some (ok, fp1) → ok = false := by
  intro f
  induction f with
  | ret b =>
    intro fp ok fp1 hns hrun
    simp only [T7.runTest, Option.some.injEq, Prod.mk.injEq] at hrun
    rw [T7.neverSucceeds] at hns
    simp_all
  | call onFail onOk ihF ihO =>
    intro fp ok fp1 hns hrun
    rw [T7.neverSucceeds, Bool.and_eq_true] at hns
    simp only [T7.runTest] at hrun
    cases hsim : T7.simulate_failure fp with
    | none => rw [hsim] at hrun; cases hrun
    | some r =>
      rw [hsim] at hrun
      obtain ⟨b, fp2⟩ := r
      cases b with
      | true => exact ihF fp2 ok fp1 hns.1 hrun
      | false => exact ihO fp2 ok fp1 hns.2 hrun

/- ------------------------------------------------------------------ -/
/- Claim theorems for the failure-simulation harness                   -/
/- ------------------------------------------------------------------ -/

/-- Claim C2 (amended to respect the documented MAX_RECURSION call ceiling):
for every k at most MAX_RECURSION, the test function that succeeds exactly
when its first k simulate_failure calls all report "do not fail" is invoked
exactly k+1 times by repeat_test, which returns success. -/
theorem repeat_test_chain_C2 (k : Nat) (hk : k ≤ T7.MAX_RECURSION) :
    T7.repeat_test (T7.chain k) (k + 1) = some (true, k + 1) := by
  rw [T7.repeat_test]
  have h0 : T7.initFrame.simulate = T7.bitsGE 0 := by
    funext idx
    simp [T7.initFrame, T7.bitsGE]
  rw [repeatLoop_chain k hk k 0 0 T7.initFrame h0 (by omega)]
  norm_num

/-- Witness for C2: the k = 3 scenario of the spec, four invocations and a
success result. -/
theorem repeat_test_chain_C2_witness :
    3 ≤ T7.MAX_RECURSION ∧ T7.repeat_test (T7.chain 3) 4 = some (true, 4) :=
  ⟨by decide, repeat_test_chain_C2 3 (by decide)⟩

/-- Counterexample to claim C2 as frozen: for k = MAX_RECURSION + 1 = 1025 the
harness does not invoke the function k+1 times and return success; the k-th
execution exceeds the simulate_failure call ceiling and the process is
terminated (modelled as `none`), for the claimed number of iterations of the
loop (and indeed for any number). -/
theorem repeat_test_chain_over_ceiling_C2 :
    T7.repeat_test (T7.chain 1025) 1026 = none := by
  rw [T7.repeat_test]
  have h0 : T7.initFrame.simulate = T7.bitsGE 0 := by
    funext idx
    simp [T7.initFrame, T7.bitsGE]
  exact repeatLoop_chain_over_ceiling 1025 (by decide) 1026 0 0 T7.initFrame h0 (by omega)

/-- Claim C4 (amended): a test function that never returns success and whose
first harness execution triggers no simulated failure (for example one that
never calls simulate_failure) causes repeat_test to return failure after
invoking the function exactly once. -/
theorem repeat_test_never_success_C4 (f : T7.TestFn) (ok : Bool)
    (fp1 : T7.TestFrame) (fuel : Nat)
    (h1 : T7.neverSucceeds f = true)
    (h2 : T7.runTest f T7.initFrame = some (ok, fp1))
    (h3 : fp1.triggered = false) :
    T7.repeat_test f (fuel + 1) = some (false, 1) := by
  rw [T7.repeat_test]
  have hreset : ({ T7.initFrame with triggered := false, count := 0 } : T7.TestFrame) =
      T7.initFrame := rfl
  simp only [T7.repeatLoop, hreset, h2, h3]
  simp [runTest_false_of_neverSucceeds f T7.initFrame ok fp1 h1 h2]

/-- Witness for C4: the test function that returns failure without ever
calling simulate_failure is invoked exactly once. -/
theorem repeat_test_never_success_C4_witness :
    T7.neverSucceeds (.ret false) = true ∧
    T7.repeat_test (.ret false) 1 = some (false, 1) :=
  ⟨rfl, repeat_test_never_success_C4 (.ret false) false T7.initFrame 0 rfl rfl rfl⟩

/-- Counterexample to claim C4 as frozen: a test function that never returns
success but does consult simulate_failure is invoked twice, not once — its
first execution triggers a simulated failure, so the harness flips the bit
and runs it again. -/
theorem repeat_test_never_success_C4_cex :
    T7.neverSucceeds (.call (.ret false) (.ret false)) = true ∧
    T7.repeat_test (.call (.ret false) (.ret false)) 2 = some (false, 2) := by
  constructor
  · rfl
  · decide

/- ------------------------------------------------------------------ -/
/- Helper lemmas for the arena allocator : header-word arithmetic      -/
/- ------------------------------------------------------------------ -/

theorem W_pos : 0 < T7.W := by
  rw [T7.W]; omega

theorem maskFree_le (v : Nat) : T7.maskFree v ≤ v := by
  rw [T7.maskFree]; omega

theorem maskFree_even (v : Nat) : T7.maskFree v % 2 = 0 := by
  rw [T7.maskFree]; omega

theorem maskFree_of_even (v : Nat) (h : v % 2 = 0) : T7.maskFree v = v := by
  rw [T7.maskFree]; omega

theorem maskFree_maskAlloc (v : Nat) :
    T7.maskFree (T7.maskAlloc v) = T7.maskFree v := by
  rw [T7.maskAlloc, T7.maskFree, T7.maskFree]; omega

theorem is_free_iff (v : Nat) : T7.is_free v = true ↔ v % 2 = 0 := by
  rw [T7.is_free]; simp

theorem is_free_maskAlloc (v : Nat) : T7.is_free (T7.maskAlloc v) = false := by
  rw [T7.maskAlloc, T7.maskFree, T7.is_free]; simp; omega

theorem is_free_maskFree (v : Nat) : T7.is_free (T7.maskFree v) = true := by
  rw [T7.maskFree, T7.is_free]; simp; omega

theorem maskFree_idem (v : Nat) : T7.maskFree (T7.maskFree v) = T7.maskFree v := by
  rw [T7.maskFree, T7.maskFree]; omega

theorem roundup_ge (n : Nat) : n + T7.W ≤ T7.roundup n := by
  rw [T7.roundup, T7.W]
  split
  · omega
  · have h2 : n ≤ ((n + 7) / 8) * 8 := by omega
    omega

theorem roundup_pos (n : Nat) : T7.W ≤ T7.roundup n := by
  have := roundup_ge n; omega

theorem roundup_dvd (n : Nat) : T7.W ∣ T7.roundup n := by
  rw [T7.roundup, T7.W]
  split
  · omega
  · refine ⟨1 + (n + 7) / 8, by omega⟩

/- ------------------------------------------------------------------ -/
/- Helper lemmas for the arena allocator : walking the node sequence   -/
/- ------------------------------------------------------------------ -/

theorem walk_nil (s : T7.StaticAllocator) (fuel o : Nat)
    (h : T7.walk s fuel o = some []) : o = s.size := by
  cases fuel with
  | zero =>
    rw [T7.walk] at h
    by_cases ho : o = s.size
    · exact ho
    · rw [if_neg ho] at h; cases h
  | succ fuel =>
    rw [T7.walk] at h
    by_cases ho : o = s.size
    · exact ho
    · rw [if_neg ho] at h
      by_cases hc : o < s.size ∧ T7.W ≤ T7.maskFree (s.buf o) ∧
          T7.maskFree (s.buf o) % T7.W = 0
      · rw [if_pos hc] at h
        cases hw : T7.walk s fuel (o + T7.maskFree (s.buf o)) with
        | none => rw [hw] at h; cases h
        | some l => rw [hw] at h; cases h
      · rw [if_neg hc] at h; cases h

theorem walk_size (s : T7.StaticAllocator) (fuel : Nat) :
    T7.walk s fuel s.size = some [] := by
  cases fuel with
  | zero => rw [T7.walk, if_pos rfl]
  | succ fuel => rw [T7.walk, if_pos rfl]

theorem walk_cons (s : T7.StaticAllocator) (fuel o : Nat) (x : Nat) (l : List Nat)
    (h : T7.walk s fuel o = some (x :: l)) :
    x = o ∧ o < s.size ∧ T7.W ≤ T7.maskFree (s.buf o) ∧
    T7.maskFree (s.buf o) % T7.W = 0 ∧
    ∃ fuel1, fuel = fuel1 + 1 ∧
      T7.walk s fuel1 (o + T7.maskFree (s.buf o)) = some l := by
  cases fuel with
  | zero =>
    rw [T7.walk] at h
    by_cases ho : o = s.size
    · rw [if_pos ho] at h; cases h
    · rw [if_neg ho] at h; cases h
  | succ fuel =>
    rw [T7.walk] at h
    by_cases ho : o = s.size
    · rw [if_pos ho] at h; cases h
    · rw [if_neg ho] at h
      by_cases hc : o < s.size ∧ T7.W ≤ T7.maskFree (s.buf o) ∧
          T7.maskFree (s.buf o) % T7.W = 0
      · rw [if_pos hc] at h
        cases hw : T7.walk s fuel (o + T7.maskFree (s.buf o)) with
        | none => rw [hw] at h; cases h
        | some l2 =>
          rw [hw] at h
          cases h
          exact ⟨rfl, hc.1, hc.2.1, hc.2.2, fuel, rfl, hw⟩
      · rw [if_neg hc] at h; cases h

theorem walk_mono (s : T7.StaticAllocator) :
    ∀ (fuel fuel1 o : Nat) (l : List Nat), fuel ≤ fuel1 →
    T7.walk s fuel o = some l → T7.walk s fuel1 o = some l := by
  intro fuel
  induction fuel with
  | zero =>
    intro fuel1 o l h1 h2
    rw [T7.walk] at h2
    by_cases ho : o = s.size
    · rw [if_pos ho] at h2
      cases h2
      rw [ho]
      exact walk_size s fuel1
    · rw [if_neg ho] at h2; cases h2
  | succ fuel ih =>
    intro fuel1 o l h1 h2
    cases l with
    | nil =>
      have := walk_nil s (fuel + 1) o h2
      rw [this]
      exact walk_size s fuel1
    | cons x l =>
      obtain ⟨hx, ho, hw1, hw2, fuel2, hf, hwalk⟩ := walk_cons s (fuel + 1) o x l h2
      cases hf
      cases fuel1 with
      | zero => omega
      | succ fuel1 =>
        rw [T7.walk, if_neg (by omega : ¬ o = s.size), if_pos ⟨ho, hw1, hw2⟩]
        rw [ih fuel1 _ l (by omega) hwalk]
        rw [hx]

theorem walk_mem_bounds (s : T7.StaticAllocator) :
    ∀ (fuel o : Nat) (l : List Nat), T7.walk s fuel o = some l →
    ∀ x ∈ l, o ≤ x ∧ x < s.size := by
  intro fuel
  induction fuel with
  | zero =>
    intro o l h x hx
    rw [T7.walk] at h
    by_cases ho : o = s.size
    · rw [if_pos ho] at h; cases h; cases hx
    · rw [if_neg ho] at h; cases h
  | succ fuel ih =>
    intro o l h x hx
    cases l with
    | nil => cases hx
    | cons y l =>
      obtain ⟨hy, ho, hw1, hw2, fuel2, hf, hwalk⟩ := walk_cons s (fuel + 1) o y l h
      cases hf
      cases hx with
      | head => omega
      | tail _ hmem =>
        have := ih _ l hwalk x hmem
        constructor
        · have := T7.W
          omega
        · exact this.2

theorem walk_congr (s s2 : T7.StaticAllocator) (hsize : s2.size = s.size) :
    ∀ (fuel o : Nat) (l : List Nat), T7.walk s fuel o = some l →
    (∀ b ∈ l, T7.maskFree (s2.buf b) = T7.maskFree (s.buf b)) →
    T7.walk s2 fuel o = some l := by
  intro fuel
  induction fuel with
  | zero =>
    intro o l h hagree
    rw [T7.walk] at h
    by_cases ho : o = s.size
    · rw [if_pos ho] at h
      cases h
      rw [T7.walk, if_pos (by omega)]
    · rw [if_neg ho] at h; cases h
  | succ fuel ih =>
    intro o l h hagree
    cases l with
    | nil =>
      have := walk_nil s (fuel + 1) o h
      rw [this, ← hsize]
      exact walk_size s2 (fuel + 1)
    | cons y l =>
      obtain ⟨hy, ho, hw1, hw2, fuel2, hf, hwalk⟩ := walk_cons s (fuel + 1) o y l h
      cases hf
      have hb : T7.maskFree (s2.buf o) = T7.maskFree (s.buf o) := by
        apply hagree
        rw [hy]
        exact List.mem_cons_self o l
      rw [T7.walk, if_neg (by omega : ¬ o = s2.size), if_pos (by rw [hb]; exact ⟨by omega, hw1, hw2⟩)]
      rw [hb, ih _ l hwalk (fun b hb2 => hagree b (List.mem_cons_of_mem y hb2))]
      rw [hy]

theorem walk_align (s : T7.StaticAllocator) :
    ∀ (fuel o : Nat) (l : List Nat), T7.walk s fuel o = some l →
    o % T7.W = 0 → ∀ x ∈ l, x % T7.W = 0 := by
  intro fuel
  induction fuel with
  | zero =>
    intro o l h ho x hx
    rw [T7.walk] at h
    by_cases hos : o = s.size
    · rw [if_pos hos] at h; cases h; cases hx
    · rw [if_neg hos] at h; cases h
  | succ fuel ih =>
    intro o l h ho x hx
    cases l with
    | nil => cases hx
    | cons y l =>
      obtain ⟨hy, hos, hw1, hw2, fuel2, hf, hwalk⟩ := walk_cons s (fuel + 1) o y l h
      cases hf
      cases hx with
      | head => rw [hy]; exact ho
      | tail _ hmem =>
        exact ih _ l hwalk (by simp [Nat.add_mod, ho, hw2]) x hmem

theorem walk_decompose (s : T7.StaticAllocator) :
    ∀ (fuel o : Nat) (l : List Nat), T7.walk s fuel o = some l →
    ∀ x ∈ l, ∃ l1 l2, l = l1 ++ x :: l2 ∧ (∀ b ∈ l1, b < x) ∧
      T7.walk s fuel x = some (x :: l2) := by
  intro fuel
  induction fuel with
  | zero =>
    intro o l h x hx
    rw [T7.walk] at h
    by_cases hos : o = s.size
    · rw [if_pos hos] at h; cases h; cases hx
    · rw [if_neg hos] at h; cases h
  | succ fuel ih =>
    intro o l h x hx
    cases l with
    | nil => cases hx
    | cons y l =>
      obtain ⟨hy, hos, hw1, hw2, fuel2, hf, hwalk⟩ := walk_cons s (fuel + 1) o y l h
      cases hf
      cases hx with
      | head =>
        exact ⟨[], l, by simp [hy], by simp, by rw [hy] at h ⊢; exact h⟩
      | tail _ hmem =>
        obtain ⟨l1, l2, hl, hlt, hwx⟩ := ih _ l hwalk x hmem
        refine ⟨y :: l1, l2, by simp [hl], ?_, walk_mono s fuel (fuel + 1) x (x :: l2) (by omega) hwx⟩
        intro b hb
        cases hb with
        | head =>
          have h9 := walk_mem_bounds s fuel _ l hwalk x hmem
          have h8 := W_pos
          omega
        | tail _ hb2 => exact hlt b hb2

theorem walk_disjoint (s : T7.StaticAllocator) (fuel o : Nat) (l : List Nat)
    (h : T7.walk s fuel o = some l) (x y : Nat) (hx : x ∈ l) (hy : y ∈ l)
    (hxy : x < y) : x + T7.maskFree (s.buf x) ≤ y := by
  obtain ⟨l1, l2, hl, hlt, hwx⟩ := walk_decompose s fuel o l h x hx
  have hy2 : y ∈ x :: l2 := by
    rw [hl] at hy
    rcases List.mem_append.mp hy with hy3 | hy3
    · exact absurd (hlt y hy3) (by omega)
    · exact hy3
  cases hy2 with
  | head => omega
  | tail _ hy3 =>
    obtain ⟨hx2, hox, hw1, hw2, fuel2, hf, hwalk⟩ := walk_cons s fuel x x l2 hwx
    exact (walk_mem_bounds s fuel2 _ l2 hwalk y hy3).1

theorem walk_next_mem (s : T7.StaticAllocator) (fuel o : Nat) (l2 : List Nat)
    (h : T7.walk s fuel o = some (o :: l2)) :
    (o + T7.maskFree (s.buf o) = s.size ∧ l2 = []) ∨
    (o + T7.maskFree (s.buf o) ∈ l2 ∧
      ∃ l3, l2 = (o + T7.maskFree (s.buf o)) :: l3) := by
  obtain ⟨hx2, hox, hw1, hw2, fuel2, hf, hwalk⟩ := walk_cons s fuel o o l2 h
  cases l2 with
  | nil => exact Or.inl ⟨walk_nil s fuel2 _ hwalk, rfl⟩
  | cons z l3 =>
    obtain ⟨hz, _, _, _, _, _, _⟩ := walk_cons s fuel2 _ z l3 hwalk
    exact Or.inr ⟨by rw [← hz]; exact List.mem_cons_self z l3, l3, by rw [hz]⟩

theorem walk_zero_mem (s : T7.StaticAllocator) (fuel : Nat) (l : List Nat)
    (h : T7.walk s fuel 0 = some l) (hpos : 0 < s.size) : 0 ∈ l := by
  cases l with
  | nil => have := walk_nil s fuel 0 h; omega
  | cons y l =>
    obtain ⟨hy, _, _, _, _, _, _⟩ := walk_cons s fuel 0 y l h
    rw [hy]
    exact List.mem_cons_self 0 l

theorem mergeSize_spec (s : T7.StaticAllocator) (o : Nat) :
    ∀ (fuelM k : Nat) (lk : List Nat),
    T7.walk s (s.size + 1) (o + k) = some lk →
    0 < k → k % 2 = 0 → k % T7.W = 0 →
    s.size < o + k + fuelM →
    ∃ m lm ld,
      T7.mergeSize s o fuelM k = some m ∧
      k ≤ m ∧ m % 2 = 0 ∧ m % T7.W = 0 ∧
      T7.walk s (s.size + 1) (o + m) = some lm ∧
      lk = ld ++ lm ∧
      (∀ b ∈ ld, b < o + m ∧ T7.is_free (s.buf b) = true) ∧
      (o + m = s.size ∨ T7.is_free (s.buf (o + m)) = false) := by
  intro fuelM
  induction fuelM with
  | zero =>
    intro k lk h hk h2 hW hfuel
    exfalso
    cases lk with
    | nil => have := walk_nil s _ _ h; omega
    | cons y lk =>
      obtain ⟨hy, ho, _, _, _, _, _⟩ := walk_cons s _ _ y lk h
      omega
  | succ fuelM ih =>
    intro k lk h hk h2 hW hfuel
    rw [T7.mergeSize]
    by_cases hend : o + k = s.size
    · rw [if_neg (by simp [hend])]
      rw [hend, walk_size] at h
      cases h
      exact ⟨k, [], [], rfl, le_refl k, h2, hW, by rw [hend]; exact walk_size s _,
        by simp, by simp, Or.inl hend⟩
    · by_cases hfree : T7.is_free (s.buf (o + k)) = true
      · rw [if_pos (by exact ⟨hend, hfree⟩)]
        cases lk with
        | nil => exact absurd (walk_nil s _ _ h) hend
        | cons y lk1 =>
          obtain ⟨hy, ho, hw1, hw2, fuel2, hfeq, hwalk⟩ := walk_cons s _ _ y lk1 h
          have hraw : T7.maskFree (s.buf (o + k)) = s.buf (o + k) :=
            maskFree_of_even _ ((is_free_iff _).mp hfree)
          have hwalk2 : T7.walk s (s.size + 1) (o + (k + s.buf (o + k))) = some lk1 := by
            have := walk_mono s fuel2 (s.size + 1) _ lk1 (by omega) hwalk
            rw [hraw] at this
            rw [← Nat.add_assoc]
            exact this
          have hbufeven : s.buf (o + k) % 2 = 0 := (is_free_iff _).mp hfree
          have hbufW : s.buf (o + k) % T7.W = 0 := by rw [← hraw]; exact hw2
          have hbufpos : 0 < s.buf (o + k) := by
            have := W_pos
            omega
          obtain ⟨m, lm, ld, hms, hkm, hm2, hmW, hwm, hsplit, hld, hlast⟩ :=
            ih (k + s.buf (o + k)) lk1 hwalk2 (by omega)
              (by omega) (by rw [Nat.add_mod, hW, hbufW]; simp) (by omega)
          refine ⟨m, lm, (o + k) :: ld, hms, by omega, hm2, hmW, hwm, ?_, ?_, hlast⟩
          · rw [hy, hsplit]
            simp
          · intro b hb
            cases hb with
            | head => exact ⟨by omega, hfree⟩
            | tail _ hb2 => exact hld b hb2
      · rw [if_neg (by simp [hfree])]
        refine ⟨k, lk, [], rfl, le_refl k, h2, hW, h, by simp, by simp, ?_⟩
        right
        simp at hfree
        exact hfree

theorem walk_length (s : T7.StaticAllocator) :
    ∀ (fuel o : Nat) (l : List Nat), T7.walk s fuel o = some l →
    o + l.length ≤ s.size := by
  intro fuel
  induction fuel with
  | zero =>
    intro o l h
    rw [T7.walk] at h
    by_cases ho : o = s.size
    · rw [if_pos ho] at h; cases h; simp; omega
    · rw [if_neg ho] at h; cases h
  | succ fuel ih =>
    intro o l h
    cases l with
    | nil =>
      have := walk_nil s _ _ h
      simp
      omega
    | cons y l =>
      obtain ⟨hy, ho, hw1, hw2, fuel2, hfeq, hwalk⟩ := walk_cons s _ _ y l h
      cases hfeq
      have h9 := ih _ l hwalk
      have h8 := W_pos
      simp
      omega

theorem walk_fuel_ge (s : T7.StaticAllocator) :
    ∀ (l : List Nat) (fuel fuel1 o : Nat), T7.walk s fuel o = some l →
    l.length ≤ fuel1 → T7.walk s fuel1 o = some l := by
  intro l
  induction l with
  | nil =>
    intro fuel fuel1 o h hlen
    rw [walk_nil s _ _ h]
    exact walk_size s fuel1
  | cons y l ih =>
    intro fuel fuel1 o h hlen
    obtain ⟨hy, ho, hw1, hw2, fuel2, hfeq, hwalk⟩ := walk_cons s _ _ y l h
    cases fuel1 with
    | zero => simp at hlen
    | succ fuel1 =>
      rw [T7.walk, if_neg (by omega : ¬ o = s.size), if_pos ⟨ho, hw1, hw2⟩]
      rw [ih fuel2 fuel1 _ hwalk (by simp at hlen; omega)]
      rw [hy]

theorem walk_reconstruct (s s2 : T7.StaticAllocator) (hsize : s2.size = s.size) :
    ∀ (l1 : List Nat) (o0 o : Nat) (l2 lo2 : List Nat),
    T7.walk s (s.size + 1) o0 = some (l1 ++ o :: l2) →
    (∀ b ∈ l1, T7.maskFree (s2.buf b) = T7.maskFree (s.buf b)) →
    T7.walk s2 (s.size + 1) o = some lo2 →
    T7.walk s2 (s.size + 1) o0 = some (l1 ++ lo2) := by
  intro l1
  induction l1 with
  | nil =>
    intro o0 o l2 lo2 h hagree hwo
    simp at h ⊢
    obtain ⟨hy, _, _, _, _, _, _⟩ := walk_cons s _ _ o l2 h
    rw [← hy]
    exact hwo
  | cons b l1 ih =>
    intro o0 o l2 lo2 h hagree hwo
    rw [List.cons_append] at h
    obtain ⟨hy, ho, hw1, hw2, fuel2, hfeq, hwalk⟩ := walk_cons s _ _ b (l1 ++ o :: l2) h
    cases hy
    have hwalk1 : T7.walk s (s.size + 1) (b + T7.maskFree (s.buf b)) =
        some (l1 ++ o :: l2) :=
      walk_fuel_ge s _ fuel2 (s.size + 1) _ hwalk
        (by have := walk_length s fuel2 _ _ hwalk; omega)
    have hmask : T7.maskFree (s2.buf b) = T7.maskFree (s.buf b) :=
      hagree b (List.mem_cons_self _ _)
    have hrec := ih (b + T7.maskFree (s.buf b)) o l2 lo2 hwalk1
      (fun b2 hb2 => hagree b2 (List.mem_cons_of_mem _ hb2)) hwo
    have hlen : (l1 ++ lo2).length ≤ s.size := by
      have := walk_length s2 (s.size + 1) _ _ hrec
      omega
    rw [T7.walk, if_neg (by omega : ¬ b = s2.size), if_pos (by rw [hmask]; exact ⟨by omega, hw1, hw2⟩)]
    rw [hmask, walk_fuel_ge s2 _ (s.size + 1) s.size _ hrec hlen]
    rfl

theorem writeHdr_start (s : T7.StaticAllocator) (o v : Nat) :
    (T7.writeHdr s o v).start = s.start := rfl

theorem writeHdr_size (s : T7.StaticAllocator) (o v : Nat) :
    (T7.writeHdr s o v).size = s.size := rfl

theorem writeHdr_buf_self (s : T7.StaticAllocator) (o v : Nat) :
    (T7.writeHdr s o v).buf o = v := by
  rw [T7.writeHdr]
  simp

theorem writeHdr_buf_other (s : T7.StaticAllocator) (o v i : Nat) (h : i ≠ o) :
    (T7.writeHdr s o v).buf i = s.buf i := by
  rw [T7.writeHdr]
  simp [h]

theorem walk_set_start (s : T7.StaticAllocator) (x : Nat) (fuel o : Nat)
    (l : List Nat) (h : T7.walk s fuel o = some l) :
    T7.walk { s with start := x } fuel o = some l :=
  walk_congr s { s with start := x } rfl fuel o l h (fun _ _ => rfl)

theorem get_size_spec (s : T7.StaticAllocator) (l : List Nat) (o : Nat)
    (hl : T7.nodes s = some l) (ho : o ∈ l)
    (hfree : T7.is_free (s.buf o) = true) :
    ∃ m s2 l1 l2 lm ld,
      T7.get_size s o = some (m, s2) ∧
      l = l1 ++ o :: l2 ∧ (∀ b ∈ l1, b < o) ∧
      l2 = ld ++ lm ∧ (∀ b ∈ ld, b < o + m ∧ T7.is_free (s.buf b) = true) ∧
      (∀ b ∈ lm, o + m ≤ b) ∧
      T7.nodes s2 = some (l1 ++ o :: lm) ∧
      s2.size = s.size ∧
      (∀ i, i ≠ o → s2.buf i = s.buf i) ∧
      s2.buf o = m ∧
      s.buf o ≤ m ∧ m % 2 = 0 ∧ m % T7.W = 0 ∧ T7.W ≤ m ∧
      o + m ≤ s.size ∧
      (o + m = s.size ∨ T7.is_free (s.buf (o + m)) = false) ∧
      (s.start ∈ l → s2.start ∈ (l1 ++ o :: lm)) ∧
      (¬ (o < s.start ∧ s.start < o + m) → s2.start = s.start) ∧
      (o + m = s.size ∨ o + m ∈ lm) ∧
      ((o < s.start ∧ s.start < o + m) →
        s2.start = if o + m = s.size then 0 else o + m) := by
  rw [T7.nodes] at hl
  obtain ⟨l1, l2, hldec, hl1lt, hwo⟩ := walk_decompose s _ 0 l hl o ho
  obtain ⟨hoa, hosize, hw1, hw2, fuel2, hfeq, hwalk⟩ := walk_cons s _ o o l2 hwo
  have hme : s.buf o % 2 = 0 := (is_free_iff _).mp hfree
  have hmask_raw : T7.maskFree (s.buf o) = s.buf o := maskFree_of_even _ hme
  have hwalk2 : T7.walk s (s.size + 1) (o + s.buf o) = some l2 := by
    rw [← hmask_raw]
    exact walk_fuel_ge s _ fuel2 (s.size + 1) _ hwalk
      (by have := walk_length s fuel2 _ _ hwalk; omega)
  have hbufpos : 0 < s.buf o := by have := W_pos; omega
  obtain ⟨m, lm, ld, hms, hkm, hm2, hmW, hwm, hsplit, hld, hlast⟩ :=
    mergeSize_spec s o (s.size + 1) (s.buf o) l2 hwalk2 hbufpos hme
      (by rw [← hmask_raw]; exact hw2) (by omega)
  have homle : o + m ≤ s.size := by
    have := walk_length s (s.size + 1) _ _ hwm
    omega
  have hWm : T7.W ≤ m := by omega
  -- the state after the merged size is stored
  have hs1buf_self : (T7.writeHdr s o m).buf o = m := writeHdr_buf_self s o m
  have hmaskm : T7.maskFree m = m := maskFree_of_even m hm2
  -- walk of the written state from o
  have hwm1 : T7.walk (T7.writeHdr s o m) (s.size + 1) (o + m) = some lm := by
    apply walk_congr s (T7.writeHdr s o m) rfl _ _ lm hwm
    intro b hb
    have hble := walk_mem_bounds s (s.size + 1) _ lm hwm b hb
    rw [writeHdr_buf_other s o m b (by omega)]
  have hwalk1o : T7.walk (T7.writeHdr s o m) (s.size + 1) o = some (o :: lm) := by
    rw [T7.walk, if_neg (by rw [writeHdr_size]; omega : ¬ o = (T7.writeHdr s o m).size)]
    rw [if_pos (by rw [writeHdr_size, hs1buf_self, hmaskm]; exact ⟨hosize, hWm, hmW⟩)]
    rw [hs1buf_self, hmaskm]
    rw [walk_fuel_ge (T7.writeHdr s o m) _ (s.size + 1) s.size _ hwm1
      (by have := walk_length (T7.writeHdr s o m) (s.size + 1) _ _ hwm1
          rw [writeHdr_size] at this; omega)]
  have hnodes1 : T7.nodes (T7.writeHdr s o m) = some (l1 ++ o :: lm) := by
    rw [T7.nodes, writeHdr_size]
    apply walk_reconstruct s (T7.writeHdr s o m) rfl l1 0 o l2 (o :: lm)
      (by rw [hldec] at hl; exact hl)
    · intro b hb
      rw [writeHdr_buf_other s o m b (by have := hl1lt b hb; omega)]
    · exact hwalk1o
  have hl2gt : ∀ b ∈ l2, o < b := by
    intro b hb
    have := walk_mem_bounds s fuel2 _ l2 hwalk b hb
    have := W_pos
    omega
  have hlm_ge : ∀ b ∈ lm, o + m ≤ b :=
    fun b hb => (walk_mem_bounds s (s.size + 1) _ lm hwm b hb).1
  have hommem : o + m = s.size ∨ o + m ∈ lm := by
    cases lm with
    | nil => exact Or.inl (walk_nil s (s.size + 1) _ hwm)
    | cons z lm1 =>
      obtain ⟨hz, _, _, _, _, _, _⟩ := walk_cons s _ _ z lm1 hwm
      exact Or.inr (by rw [← hz]; exact List.mem_cons_self z lm1)
  -- unfold get_size
  rw [T7.get_size, if_neg (by simp [hfree]), hms]
  by_cases hcond : o < (T7.writeHdr s o m).start ∧ (T7.writeHdr s o m).start < o + m
  · by_cases hnext : o + m ≠ (T7.writeHdr s o m).size
    · refine ⟨m, { T7.writeHdr s o m with start := o + m }, l1, l2, lm, ld,
        by simp only [if_pos hcond, if_pos hnext], hldec, hl1lt, hsplit, hld, hlm_ge,
        ?_, rfl, ?_, hs1buf_self, hkm, hm2, hmW, hWm, homle, hlast, ?_, ?_, hommem, ?_⟩
      · rw [T7.nodes]
        rw [T7.nodes, writeHdr_size] at hnodes1
        exact walk_set_start (T7.writeHdr s o m) (o + m) _ 0 _ hnodes1
      · intro i hi
        exact writeHdr_buf_other s o m i hi
      · intro hstart
        have : o + m ∈ lm := by
          cases lm with
          | nil =>
            exfalso
            have := walk_nil (T7.writeHdr s o m) (s.size + 1) (o + m) hwm1
            exact hnext this
          | cons z lm1 =>
            obtain ⟨hz, _, _, _, _, _, _⟩ := walk_cons (T7.writeHdr s o m) _ _ z lm1 hwm1
            rw [← hz]
            exact List.mem_cons_self z lm1
        simp only [List.mem_append, List.mem_cons]
        right; right; exact this
      · intro hnc
        rw [writeHdr_start] at hcond
        exact absurd hcond hnc
      · intro h9
        have hnext2 : ¬ (o + m = s.size) := hnext
        rw [if_neg hnext2]
    · refine ⟨m, { T7.writeHdr s o m with start := 0 }, l1, l2, lm, ld,
        by simp only [if_pos hcond, if_neg hnext], hldec, hl1lt, hsplit, hld, hlm_ge,
        ?_, rfl, ?_, hs1buf_self, hkm, hm2, hmW, hWm, homle, hlast, ?_, ?_, hommem, ?_⟩
      · rw [T7.nodes]
        rw [T7.nodes, writeHdr_size] at hnodes1
        exact walk_set_start (T7.writeHdr s o m) 0 _ 0 _ hnodes1
      · intro i hi
        exact writeHdr_buf_other s o m i hi
      · intro hstart
        have h0 : (0 : Nat) ∈ l1 ++ o :: lm := by
          rw [T7.nodes, writeHdr_size] at hnodes1
          exact walk_zero_mem (T7.writeHdr s o m) (s.size + 1) _ hnodes1
            (by rw [writeHdr_size]; omega)
        exact h0
      · intro hnc
        rw [writeHdr_start] at hcond
        exact absurd hcond hnc
      · intro h9
        have hnext2 : o + m = s.size := not_ne_iff.mp hnext
        rw [if_pos hnext2]
  · refine ⟨m, T7.writeHdr s o m, l1, l2, lm, ld,
      by simp only [if_neg hcond], hldec, hl1lt, hsplit, hld, hlm_ge,
      hnodes1, rfl, ?_, hs1buf_self, hkm, hm2, hmW, hWm, homle, hlast, ?_, ?_,
      hommem, ?_⟩
    · intro i hi
      exact writeHdr_buf_other s o m i hi
    · intro hstart
      rw [writeHdr_start] at hcond ⊢
      rw [hldec] at hstart
      rcases List.mem_append.mp hstart with hst | hst
      · simp only [List.mem_append]
        left; exact hst
      · rcases List.mem_cons.mp hst with hst2 | hst2
        · simp only [List.mem_append, List.mem_cons]
          right; left; exact hst2
        · rw [hsplit] at hst2
          rcases List.mem_append.mp hst2 with hst3 | hst3
          · exfalso
            have hb1 := hld s.start hst3
            have hb2 := hl2gt s.start (by rw [hsplit]; exact List.mem_append.mpr (Or.inl hst3))
            exact hcond ⟨hb2, hb1.1⟩
          · simp only [List.mem_append, List.mem_cons]
            right; right; exact hst3
    · intro hnc
      exact writeHdr_start s o m
    · intro h9
      rw [writeHdr_start] at hcond
      exact absurd h9 hcond

theorem mod_W_even (v : Nat) (h : v % T7.W = 0) : v % 2 = 0 := by
  rw [T7.W] at h
  omega


theorem allocate_node_spec (s : T7.StaticAllocator) (l : List Nat)
    (o new_size : Nat)
    (hl : T7.nodes s = some l) (ho : o ∈ l)
    (heven : s.buf o % 2 = 0)
    (hWn : T7.W ≤ new_size) (hnW : new_size % T7.W = 0)
    (hle : new_size ≤ s.buf o) :
    ∃ s2 l', T7.allocate_node s o new_size = (s2, o + T7.W) ∧
      T7.nodes s2 = some l' ∧ s2.start = o ∧ s2.size = s.size ∧ o ∈ l' ∧
      (∀ x ∈ l, x ∈ l') ∧
      (∀ x ∈ l', x ∈ l ∨ x = o + new_size) ∧
      T7.is_free (s2.buf o) = false ∧
      new_size ≤ T7.maskFree (s2.buf o) ∧ T7.maskFree (s2.buf o) ≤ s.buf o ∧
      (∀ i, i < o ∨ o + s.buf o ≤ i → s2.buf i = s.buf i) ∧
      (∀ i, o < i → i < o + new_size → s2.buf i = s.buf i) := by
  rw [T7.nodes] at hl
  obtain ⟨l1, l2, hldec, hl1, hwo⟩ := walk_decompose s _ 0 l hl o ho
  obtain ⟨hoa, hosize, hw1, hw2, fuel2, hfeq, hwalk⟩ := walk_cons s _ o o l2 hwo
  have hl' := hl
  rw [hldec] at hl'
  have hnpos : 0 < new_size := by have := W_pos; omega
  have hmask_raw : T7.maskFree (s.buf o) = s.buf o := maskFree_of_even _ heven
  have hbW : s.buf o % T7.W = 0 := by rw [← hmask_raw]; exact hw2
  have hbound : o + s.buf o ≤ s.size := by
    have := walk_length s fuel2 _ _ hwalk
    rw [hmask_raw] at this
    omega
  have hl2ge : ∀ b ∈ l2, o + s.buf o ≤ b := by
    intro b hb
    have := walk_mem_bounds s fuel2 _ l2 hwalk b hb
    rw [hmask_raw] at this
    exact this.1
  have hwalk_top : T7.walk s (s.size + 1) (o + s.buf o) = some l2 := by
    rw [← hmask_raw]
    exact walk_fuel_ge s _ fuel2 (s.size + 1) _ hwalk
      (by have := walk_length s fuel2 _ _ hwalk; omega)
  rw [T7.allocate_node]
  by_cases hsplit : new_size < s.buf o
  · -- split case
    rw [if_pos hsplit]
    set s2 := { T7.writeHdr (T7.writeHdr s o (T7.maskAlloc new_size))
      (o + new_size) (s.buf o - new_size) with start := o } with hs2
    have hs2size : s2.size = s.size := by rw [hs2]; rfl
    have hbuf_o : s2.buf o = T7.maskAlloc new_size := by
      rw [hs2]
      show (T7.writeHdr (T7.writeHdr s o (T7.maskAlloc new_size))
        (o + new_size) (s.buf o - new_size)).buf o = T7.maskAlloc new_size
      rw [writeHdr_buf_other _ _ _ o (by omega)]
      exact writeHdr_buf_self _ _ _
    have hbuf_split : s2.buf (o + new_size) = s.buf o - new_size := by
      rw [hs2]
      exact writeHdr_buf_self _ _ _
    have hbuf_other : ∀ i, i ≠ o → i ≠ o + new_size → s2.buf i = s.buf i := by
      intro i h1 h2
      rw [hs2]
      show (T7.writeHdr (T7.writeHdr s o (T7.maskAlloc new_size))
        (o + new_size) (s.buf o - new_size)).buf i = s.buf i
      rw [writeHdr_buf_other _ _ _ i h2, writeHdr_buf_other _ _ _ i h1]
    have hrem_even : (s.buf o - new_size) % 2 = 0 := by
      have := mod_W_even new_size hnW
      omega
    have hd1 : T7.W ∣ s.buf o := Nat.dvd_of_mod_eq_zero hbW
    have hd2 : T7.W ∣ new_size := Nat.dvd_of_mod_eq_zero hnW
    have hrem_W : (s.buf o - new_size) % T7.W = 0 := by
      obtain ⟨c, hc⟩ := Nat.dvd_sub' hd1 hd2
      rw [hc, Nat.mul_mod_right]
    have hrem_ge : T7.W ≤ s.buf o - new_size :=
      Nat.le_of_dvd (by omega) (Nat.dvd_sub' hd1 hd2)
    have hw_l2 : T7.walk s2 (s.size + 1) (o + s.buf o) = some l2 := by
      apply walk_congr s s2 rfl _ _ l2 hwalk_top
      intro b hb
      rw [hbuf_other b (by have := hl2ge b hb; have := W_pos; omega)
        (by have := hl2ge b hb; omega)]
    have hw_split : T7.walk s2 (s.size + 1) (o + new_size) =
        some ((o + new_size) :: l2) := by
      rw [T7.walk]
      rw [if_neg (by show ¬ o + new_size = s.size; omega)]
      rw [if_pos (by
        rw [hbuf_split, maskFree_of_even _ hrem_even]
        exact ⟨by show o + new_size < s.size; omega, hrem_ge, hrem_W⟩)]
      rw [hbuf_split, maskFree_of_even _ hrem_even]
      have h9 : o + new_size + (s.buf o - new_size) = o + s.buf o := by omega
      rw [h9]
      rw [walk_fuel_ge s2 _ (s.size + 1) s.size _ hw_l2
        (by have := walk_length s2 (s.size + 1) _ _ hw_l2; omega)]
    have hw_o : T7.walk s2 (s.size + 1) o =
        some (o :: (o + new_size) :: l2) := by
      rw [T7.walk]
      rw [if_neg (by show ¬ o = s.size; omega)]
      rw [if_pos (by
        rw [hbuf_o, maskFree_maskAlloc, maskFree_of_even _ (mod_W_even _ hnW)]
        exact ⟨hosize, hWn, hnW⟩)]
      rw [hbuf_o, maskFree_maskAlloc, maskFree_of_even _ (mod_W_even _ hnW)]
      rw [walk_fuel_ge s2 _ (s.size + 1) s.size _ hw_split
        (by have := walk_length s2 (s.size + 1) _ _ hw_split; omega)]
    have hnodes2 : T7.nodes s2 = some (l1 ++ o :: (o + new_size) :: l2) := by
      rw [T7.nodes]
      show T7.walk s2 (s.size + 1) 0 = _
      apply walk_reconstruct s s2 rfl l1 0 o l2 (o :: (o + new_size) :: l2) hl'
      · intro b hb
        rw [hbuf_other b (by have := hl1 b hb; omega)
          (by have := hl1 b hb; omega)]
      · exact hw_o
    refine ⟨s2, l1 ++ o :: (o + new_size) :: l2, rfl, hnodes2, rfl, rfl,
      by simp, ?_, ?_, ?_, ?_, ?_, ?_, ?_⟩
    · intro x hx
      rw [hldec] at hx
      simp only [List.mem_append, List.mem_cons] at hx ⊢
      rcases hx with h | h | h
      · exact Or.inl h
      · exact Or.inr (Or.inl h)
      · exact Or.inr (Or.inr (Or.inr h))
    · intro x hx
      simp only [List.mem_append, List.mem_cons] at hx
      rcases hx with h | h | h | h
      · exact Or.inl (by rw [hldec]; simp [h])
      · exact Or.inl (by rw [hldec]; simp [h])
      · exact Or.inr h
      · exact Or.inl (by rw [hldec]; simp [h])
    · rw [hbuf_o]
      exact is_free_maskAlloc new_size
    · rw [hbuf_o, maskFree_maskAlloc, maskFree_of_even _ (mod_W_even _ hnW)]
    · rw [hbuf_o, maskFree_maskAlloc, maskFree_of_even _ (mod_W_even _ hnW)]
      omega
    · intro i hi
      rcases hi with hi | hi
      · exact hbuf_other i (by omega) (by omega)
      · exact hbuf_other i (by omega) (by omega)
    · intro i h1 h2
      exact hbuf_other i (by omega) (by omega)
  · -- whole-node case
    rw [if_neg hsplit]
    set s2 := { T7.writeHdr s o (T7.maskAlloc (s.buf o)) with start := o } with hs2
    have hbuf_o : s2.buf o = T7.maskAlloc (s.buf o) := by
      rw [hs2]
      exact writeHdr_buf_self _ _ _
    have hbuf_other : ∀ i, i ≠ o → s2.buf i = s.buf i := by
      intro i h1
      rw [hs2]
      exact writeHdr_buf_other _ _ _ i h1
    have hnodes2 : T7.nodes s2 = some l := by
      rw [T7.nodes]
      show T7.walk s2 (s.size + 1) 0 = some l
      apply walk_congr s s2 rfl _ _ l hl
      intro b hb
      by_cases hbo : b = o
      · rw [hbo, hbuf_o, maskFree_maskAlloc]
      · rw [hbuf_other b hbo]
    refine ⟨s2, l, rfl, hnodes2, rfl, rfl, ho, fun x hx => hx,
      fun x hx => Or.inl hx, ?_, ?_, ?_, ?_, ?_⟩
    · rw [hbuf_o]
      exact is_free_maskAlloc _
    · rw [hbuf_o, maskFree_maskAlloc, hmask_raw]
      omega
    · rw [hbuf_o, maskFree_maskAlloc, hmask_raw]
    · intro i hi
      exact hbuf_other i (by omega)
    · intro i h1 h2
      exact hbuf_other i (by omega)

theorem nodes_mem_facts (s : T7.StaticAllocator) (l : List Nat) (x : Nat)
    (hl : T7.nodes s = some l) (hx : x ∈ l) :
    x < s.size ∧ T7.W ≤ T7.maskFree (s.buf x) ∧
    T7.maskFree (s.buf x) % T7.W = 0 ∧
    x + T7.maskFree (s.buf x) ≤ s.size ∧
    (∀ b ∈ l, b ≠ x → b < x ∨ x + T7.maskFree (s.buf x) ≤ b) := by
  rw [T7.nodes] at hl
  obtain ⟨l1, l2, hldec, hl1, hwx⟩ := walk_decompose s _ 0 l hl x hx
  obtain ⟨hxa, hxsize, hw1, hw2, fuel2, hfeq, hwalk⟩ := walk_cons s _ x x l2 hwx
  refine ⟨hxsize, hw1, hw2, by have := walk_length s fuel2 _ _ hwalk; omega, ?_⟩
  intro b hb hbne
  rcases Nat.lt_or_ge b x with h | h
  · exact Or.inl h
  · exact Or.inr (walk_disjoint s (s.size + 1) 0 l hl x b hx hb (by omega))

theorem Preserves_refl (s : T7.StaticAllocator) (l : List Nat)
    (hl : T7.nodes s = some l) : T7.Preserves s s :=
  ⟨rfl, l, l, hl, hl, fun x hx _ => ⟨hx, fun _ _ _ => rfl⟩⟩

theorem Preserves_trans (a b c : T7.StaticAllocator)
    (h1 : T7.Preserves a b) (h2 : T7.Preserves b c) : T7.Preserves a c := by
  obtain ⟨hs1, l0, l1, hl0, hl1, hp1⟩ := h1
  obtain ⟨hs2, l1a, l2, hl1a, hl2, hp2⟩ := h2
  rw [hl1a] at hl1
  cases hl1
  refine ⟨by omega, l0, l2, hl0, hl2, ?_⟩
  intro x hx halloc
  obtain ⟨hmem1, hbytes1⟩ := hp1 x hx halloc
  have hWx := (nodes_mem_facts a l0 x hl0 hx).2.1
  have hhdr : b.buf x = a.buf x :=
    hbytes1 x (le_refl x) (by have := W_pos; omega)
  have halloc1 : T7.is_free (b.buf x) = false := by rw [hhdr]; exact halloc
  obtain ⟨hmem2, hbytes2⟩ := hp2 x hmem1 halloc1
  refine ⟨hmem2, ?_⟩
  intro i hi1 hi2
  have hmaskeq : T7.maskFree (b.buf x) = T7.maskFree (a.buf x) := by rw [hhdr]
  rw [hbytes2 i hi1 (by omega), hbytes1 i hi1 hi2]

theorem Evolves_refl (s : T7.StaticAllocator) (l : List Nat)
    (hl : T7.nodes s = some l) : T7.Evolves s s :=
  ⟨Preserves_refl s l hl, l, l, hl, hl, fun x hx => hx, fun x _ h => h⟩

theorem Evolves_trans (a b c : T7.StaticAllocator)
    (h1 : T7.Evolves a b) (h2 : T7.Evolves b c) : T7.Evolves a c := by
  obtain ⟨hp1, l0, l1, hl0, hl1, hsub1, hfree1⟩ := h1
  obtain ⟨hp2, l1a, l2, hl1a, hl2, hsub2, hfree2⟩ := h2
  rw [hl1a] at hl1
  cases hl1
  refine ⟨Preserves_trans a b c hp1 hp2, l0, l2, hl0, hl2, ?_, ?_⟩
  · intro x hx
    exact hsub1 x (hsub2 x hx)
  · intro x hx hfree
    exact hfree2 x hx (hfree1 x (hsub2 x hx) hfree)

theorem static_release_memory_spec (s : T7.StaticAllocator) (l : List Nat)
    (o : Nat) (hl : T7.nodes s = some l) (ho : o ∈ l) (hstart : s.start ∈ l) :
    ∃ s2, T7.static_release_memory s (o + T7.W) = s2 ∧
      T7.nodes s2 = some l ∧ s2.start ∈ l ∧ s2.size = s.size ∧
      s2.buf o = T7.maskFree (s.buf o) ∧
      (∀ i, i ≠ o → s2.buf i = s.buf i) := by
  have hnode : o + T7.W - T7.W = o := by omega
  rw [T7.static_release_memory]
  simp only [hnode]
  have hnodes1 : T7.nodes (T7.writeHdr s o (T7.maskFree (s.buf o))) = some l := by
    rw [T7.nodes, writeHdr_size]
    rw [T7.nodes] at hl
    apply walk_congr s (T7.writeHdr s o (T7.maskFree (s.buf o))) rfl _ _ l hl
    intro b hb
    by_cases hbo : b = o
    · rw [hbo, writeHdr_buf_self, maskFree_idem]
    · rw [writeHdr_buf_other _ _ _ b hbo]
  by_cases hlt : o < (T7.writeHdr s o (T7.maskFree (s.buf o))).start
  · rw [if_pos hlt]
    refine ⟨_, rfl, ?_, ho, rfl, ?_, ?_⟩
    · rw [T7.nodes]
      rw [T7.nodes, writeHdr_size] at hnodes1
      exact walk_set_start _ o _ 0 _ hnodes1
    · exact writeHdr_buf_self _ _ _
    · intro i hi
      exact writeHdr_buf_other _ _ _ i hi
  · rw [if_neg hlt]
    refine ⟨_, rfl, hnodes1, hstart, rfl, writeHdr_buf_self _ _ _, ?_⟩
    intro i hi
    exact writeHdr_buf_other _ _ _ i hi

theorem get_successor_eq (s : T7.StaticAllocator) (o : Nat)
    (m : Nat) (hbuf : s.buf o = m) (hm2 : m % 2 = 0) :
    T7.get_successor s o = if o + m = s.size then 0 else o + m := by
  rw [T7.get_successor, hbuf, maskFree_of_even _ hm2]

theorem get_size_step (s : T7.StaticAllocator) (l : List Nat) (o : Nat)
    (hl : T7.nodes s = some l) (ho : o ∈ l) (hstart : s.start ∈ l)
    (hfree : T7.is_free (s.buf o) = true) :
    ∃ m s1 l1, T7.get_size s o = some (m, s1) ∧
      T7.nodes s1 = some l1 ∧ s1.start ∈ l1 ∧ o ∈ l1 ∧ s1.size = s.size ∧
      T7.Evolves s s1 ∧
      s1.buf o = m ∧ m % 2 = 0 ∧ m % T7.W = 0 ∧ T7.W ≤ m ∧ o + m ≤ s.size ∧
      s.buf o ≤ m ∧
      (o + m = s.size ∨ o + m ∈ l1) ∧
      (¬ (o < s.start ∧ s.start < o + m) → s1.start = s.start) ∧
      ((o < s.start ∧ s.start < o + m) →
        s1.start = if o + m = s.size then 0 else o + m) := by
  obtain ⟨m, s2, l1, l2, lm, ld, hgs, hldec, hl1lt, hsplit, hld, hlmge, hnodes2,
    hsize2, hbufo, hbufself, hkm, hm2, hmW, hWm, homle, hlast, hstartmem, hstartkeep,
    hommem, hstartswal⟩ := get_size_spec s l o hl ho hfree
  have hfacts := nodes_mem_facts s l o hl ho
  refine ⟨m, s2, l1 ++ o :: lm, hgs, hnodes2, hstartmem hstart, by simp,
    hsize2, ?_, hbufself, hm2, hmW, hWm, homle, hkm, ?_, hstartkeep, hstartswal⟩
  · -- Evolves s s2
    refine ⟨⟨hsize2, l, l1 ++ o :: lm, hl, hnodes2, ?_⟩,
      l, l1 ++ o :: lm, hl, hnodes2, ?_, ?_⟩
    · -- allocated nodes preserved
      intro x hx halloc
      have hxo : x ≠ o := by
        intro hxe
        rw [hxe, hfree] at halloc
        cases halloc
      constructor
      · rw [hldec] at hx
        simp only [List.mem_append, List.mem_cons] at hx ⊢
        rcases hx with h | h | h
        · exact Or.inl h
        · exact absurd h hxo
        · rw [hsplit] at h
          rcases List.mem_append.mp h with h2 | h2
          · exact absurd ((hld x h2).2) (by rw [halloc]; simp)
          · exact Or.inr (Or.inr h2)
      · intro i hi1 hi2
        apply hbufo
        have h1 := hfacts.2.2.2.2 x hx (by omega)
        have h2 := (nodes_mem_facts s l x hl hx).2.2.2.2 o ho (by omega)
        have h3 := hfacts.2.1
        have h4 := W_pos
        omega
    · -- boundaries only coarsen
      intro x hx
      simp only [List.mem_append, List.mem_cons] at hx
      rw [hldec]
      simp only [List.mem_append, List.mem_cons]
      rcases hx with h | h | h
      · exact Or.inl h
      · exact Or.inr (Or.inl h)
      · rw [hsplit]
        simp only [List.mem_append]
        exact Or.inr (Or.inr (Or.inr h))
    · -- free nodes stay free
      intro x hx hxfree
      by_cases hxo : x = o
      · rw [hxo, hbufself, T7.is_free]
        simp
        omega
      · rw [hbufo x hxo]
        exact hxfree
  · rcases hommem with h | h
    · exact Or.inl h
    · right
      simp only [List.mem_append, List.mem_cons]
      exact Or.inr (Or.inr h)

theorem nodes_next_mem (s : T7.StaticAllocator) (l : List Nat) (x : Nat)
    (hl : T7.nodes s = some l) (hx : x ∈ l) :
    x + T7.maskFree (s.buf x) = s.size ∨ x + T7.maskFree (s.buf x) ∈ l := by
  rw [T7.nodes] at hl
  obtain ⟨l1, l2, hldec, hl1, hwx⟩ := walk_decompose s _ 0 l hl x hx
  rcases walk_next_mem s (s.size + 1) x l2 hwx with ⟨h, _⟩ | ⟨h, _⟩
  · exact Or.inl h
  · right
    rw [hldec]
    simp only [List.mem_append, List.mem_cons]
    exact Or.inr (Or.inr h)

theorem Preserves_of_region_write (s1 s2 : T7.StaticAllocator)
    (l1 l2 : List Nat) (node : Nat)
    (hn1 : T7.nodes s1 = some l1) (hn2 : T7.nodes s2 = some l2)
    (hsz : s2.size = s1.size)
    (hnode : node ∈ l1) (hfree1 : T7.is_free (s1.buf node) = true)
    (hsub : ∀ x ∈ l1, x ∈ l2)
    (hframe : ∀ i, i < node ∨ node + s1.buf node ≤ i → s2.buf i = s1.buf i) :
    T7.Preserves s1 s2 := by
  refine ⟨hsz, l1, l2, hn1, hn2, ?_⟩
  intro x hx halloc
  have hxn : x ≠ node := by
    intro h
    rw [h, hfree1] at halloc
    cases halloc
  refine ⟨hsub x hx, ?_⟩
  intro i hi1 hi2
  apply hframe
  have h1 := (nodes_mem_facts s1 l1 node hn1 hnode).2.2.2.2 x hx hxn
  have h2 := (nodes_mem_facts s1 l1 x hn1 hx).2.2.2.2 node hnode (by omega)
  have h3 := (nodes_mem_facts s1 l1 node hn1 hnode).2.1
  have h4 : T7.maskFree (s1.buf node) = s1.buf node :=
    maskFree_of_even _ ((is_free_iff _).mp hfree1)
  have h5 := W_pos
  omega

theorem grabLoop_spec :
    ∀ (fuel : Nat) (s : T7.StaticAllocator) (l : List Nat) (new_size node : Nat),
    T7.nodes s = some l → s.start ∈ l → node ∈ l →
    T7.W ≤ new_size → new_size % T7.W = 0 →
    (if node = s.start then s.size + 1
     else if node ≤ s.start then s.start - node
     else s.size + s.start - node) < fuel →
    ∃ s2 res, T7.grabLoop fuel s new_size node = some (s2, res) ∧
      (∃ lf, T7.nodes s2 = some lf ∧ s2.start ∈ lf) ∧
      s2.size = s.size ∧
      T7.Preserves s s2 ∧
      (res = none → T7.Evolves s s2) ∧
      (∀ p, res = some p → ∃ ob, p = ob + T7.W ∧
        T7.is_free (s2.buf ob) = false ∧
        new_size ≤ T7.maskFree (s2.buf ob) ∧
        ob ∈ l ∧ T7.is_free (s.buf ob) = true ∧ s2.start = ob ∧
        (∃ lf, T7.nodes s2 = some lf ∧ ob ∈ lf)) := by
  intro fuel
  induction fuel with
  | zero =>
    intro s l new_size node _ _ _ _ _ hfuel
    exact absurd hfuel (Nat.not_lt_zero _)
  | succ fuel ih =>
    intro s l new_size node hl hstart hnode hWn hnW hfuel
    have hnfacts := nodes_mem_facts s l node hl hnode
    have hsfacts := nodes_mem_facts s l s.start hl hstart
    simp only [T7.grabLoop]
    by_cases hfree : T7.is_free (s.buf node) = true
    · rw [if_pos hfree]
      obtain ⟨m, s1, l1, hgs, hn1, hstart1mem, hnode1mem, hsize1, hevo, hbufn,
        hm2, hmW, hWm, homle, hkm, hsuccm, hkeep, hswalset⟩ :=
        get_size_step s l node hl hnode hstart hfree
      rw [hgs]
      dsimp only
      by_cases hfit : new_size ≤ m
      · -- allocation succeeds at this node
        rw [if_pos hfit]
        obtain ⟨s2, l2, halloc, hn2, hst2, hsz2, hmem2, hsub2, hsup2, halloc2,
          hfit2, hmle2, hframe2, hpay2⟩ :=
          allocate_node_spec s1 l1 node new_size hn1 hnode1mem
            (by rw [hbufn]; exact hm2) hWn hnW (by rw [hbufn]; exact hfit)
        refine ⟨s2, some (node + T7.W), ?_, ?_, ?_, ?_, ?_, ?_⟩
        · rw [halloc]
        · exact ⟨l2, hn2, by rw [hst2]; exact hmem2⟩
        · rw [hsz2, hsize1]
        · refine Preserves_trans s s1 s2 hevo.1 ?_
          refine Preserves_of_region_write s1 s2 l1 l2 node hn1 hn2 hsz2 hnode1mem
            (by rw [hbufn]; exact (is_free_iff m).mpr hm2) hsub2 hframe2
        · intro h
          cases h
        · intro p hp
          cases hp
          exact ⟨node, rfl, halloc2, hfit2, hnode, hfree, hst2, l2, hn2, hmem2⟩
      · -- node does not fit: advance
        rw [if_neg hfit]
        have hsucc : T7.get_successor s1 node =
            if node + m = s.size then 0 else node + m := by
          rw [get_successor_eq s1 node m hbufn hm2, hsize1]
        rw [hsucc]
        by_cases hswal : node < s.start ∧ s.start < node + m
        · -- the start cursor was swallowed by the merge: next check exits
          have hst1 : s1.start = if node + m = s.size then 0 else node + m :=
            hswalset hswal
          rw [if_pos hst1.symm]
          exact ⟨s1, none, rfl, ⟨l1, hn1, hstart1mem⟩, hsize1, hevo.1,
            fun _ => hevo, fun p hp => by cases hp⟩
        · have hst1 : s1.start = s.start := hkeep hswal
          by_cases hexit : (if node + m = s.size then 0 else node + m) = s1.start
          · rw [if_pos hexit]
            exact ⟨s1, none, rfl, ⟨l1, hn1, hstart1mem⟩, hsize1, hevo.1,
              fun _ => hevo, fun p hp => by cases hp⟩
          · rw [if_neg hexit]
            have hN1mem : (if node + m = s.size then 0 else node + m) ∈ l1 := by
              by_cases hwrap : node + m = s.size
              · rw [if_pos hwrap]
                rw [T7.nodes] at hn1
                apply walk_zero_mem s1 _ _ hn1
                have h9 := hnfacts.1
                omega
              · rw [if_neg hwrap]
                rcases hsuccm with h | h
                · exact absurd h hwrap
                · exact h
            have hWpos := W_pos
            have hfuel1 :
                (if (if node + m = s.size then 0 else node + m) = s1.start
                 then s1.size + 1
                 else if (if node + m = s.size then 0 else node + m) ≤ s1.start
                 then s1.start - (if node + m = s.size then 0 else node + m)
                 else s1.size + s1.start -
                   (if node + m = s.size then 0 else node + m)) < fuel := by
              rw [if_neg hexit, hst1, hsize1]
              have hstsize := hsfacts.1
              have hnsize := hnfacts.1
              by_cases hns : node = s.start
              · rw [hns, if_pos rfl] at hfuel
                by_cases hwrap : node + m = s.size
                · rw [if_pos hwrap]
                  split <;> omega
                · rw [if_neg hwrap]
                  split <;> omega
              · rw [if_neg hns] at hfuel
                by_cases hwrap : node + m = s.size
                · rw [if_pos hwrap] at hexit ⊢
                  rw [hst1] at hexit
                  simp only [Nat.zero_le, if_pos] at hexit ⊢
                  rcases Nat.lt_or_ge node s.start with horder | horder
                  · exfalso
                    have : node + m ≤ s.start := by
                      rcases Nat.lt_or_ge s.start (node + m) with h | h
                      · exact absurd ⟨horder, h⟩ hswal
                      · exact h
                    omega
                  · rw [if_neg (by omega)] at hfuel
                    omega
                · rw [if_neg hwrap] at hexit ⊢
                  rw [hst1] at hexit
                  rcases Nat.lt_or_ge node s.start with horder | horder
                  · have hnm : node + m ≤ s.start := by
                      rcases Nat.lt_or_ge s.start (node + m) with h | h
                      · exact absurd ⟨horder, h⟩ hswal
                      · exact h
                    rw [if_pos (by omega : node ≤ s.start)] at hfuel
                    rw [if_pos (by omega : node + m ≤ s.start)]
                    omega
                  · have horder2 : s.start < node := by omega
                    rw [if_neg (by omega : ¬ node ≤ s.start)] at hfuel
                    rw [if_neg (by omega : ¬ node + m ≤ s.start)]
                    omega
            obtain ⟨s2, res, hrec, hlf, hsz2, hpres2, hnone2, hsome2⟩ :=
              ih s1 l1 new_size (if node + m = s.size then 0 else node + m)
                hn1 hstart1mem hN1mem hWn hnW hfuel1
            refine ⟨s2, res, hrec, hlf, by rw [hsz2, hsize1],
              Preserves_trans s s1 s2 hevo.1 hpres2,
              fun h => Evolves_trans s s1 s2 hevo (hnone2 h), ?_⟩
            intro p hp
            obtain ⟨ob, hpW, hoballoc, hobfit, hobmem1, hobfree1, hobst, hoblf⟩ :=
              hsome2 p hp
            obtain ⟨hpres1, la, lb, hla, hlb, hsubev, hfreeev⟩ := hevo
            rw [hl] at hla
            cases hla
            rw [hn1] at hlb
            cases hlb
            have hobl : ob ∈ l := hsubev ob hobmem1
            have hobfree : T7.is_free (s.buf ob) = true := by
              by_cases hc : T7.is_free (s.buf ob) = true
              · exact hc
              · exfalso
                have hc2 : T7.is_free (s.buf ob) = false := by
                  revert hc
                  cases T7.is_free (s.buf ob) <;> simp
                obtain ⟨hszp, lc, lld, hlc, hld2, hclause⟩ := hpres1
                rw [hl] at hlc
                cases hlc
                rw [hn1] at hld2
                cases hld2
                obtain ⟨hmm, hbytes⟩ := hclause ob hobl hc2
                have hWob := (nodes_mem_facts s l ob hl hobl).2.1
                have : s1.buf ob = s.buf ob :=
                  hbytes ob (le_refl ob) (by omega)
                rw [this] at hobfree1
                rw [hobfree1] at hc2
                cases hc2
            exact ⟨ob, hpW, hoballoc, hobfit, hobl, hobfree, hobst, hoblf⟩
    · -- allocated node: skip it
      rw [if_neg hfree]
      have hsucc : T7.get_successor s node =
          if node + T7.maskFree (s.buf node) = s.size then 0
          else node + T7.maskFree (s.buf node) := rfl
      rw [hsucc]
      have hWpos := W_pos
      by_cases hexit :
          (if node + T7.maskFree (s.buf node) = s.size then 0
           else node + T7.maskFree (s.buf node)) = s.start
      · rw [if_pos hexit]
        exact ⟨s, none, rfl, ⟨l, hl, hstart⟩, rfl, Preserves_refl s l hl,
          fun _ => Evolves_refl s l hl, fun p hp => by cases hp⟩
      · rw [if_neg hexit]
        have hN1mem :
            (if node + T7.maskFree (s.buf node) = s.size then 0
             else node + T7.maskFree (s.buf node)) ∈ l := by
          by_cases hwrap : node + T7.maskFree (s.buf node) = s.size
          · rw [if_pos hwrap]
            rw [T7.nodes] at hl
            apply walk_zero_mem s _ _ hl
            have h9 := hnfacts.1
            omega
          · rw [if_neg hwrap]
            rcases nodes_next_mem s l node hl hnode with h | h
            · exact absurd h hwrap
            · exact h
        have hfuel1 :
            (if (if node + T7.maskFree (s.buf node) = s.size then 0
                 else node + T7.maskFree (s.buf node)) = s.start
             then s.size + 1
             else if (if node + T7.maskFree (s.buf node) = s.size then 0
                 else node + T7.maskFree (s.buf node)) ≤ s.start
             then s.start - (if node + T7.maskFree (s.buf node) = s.size then 0
                 else node + T7.maskFree (s.buf node))
             else s.size + s.start -
               (if node + T7.maskFree (s.buf node) = s.size then 0
                 else node + T7.maskFree (s.buf node))) < fuel := by
          rw [if_neg hexit]
          have hstsize := hsfacts.1
          have hnsize := hnfacts.1
          have hWM := hnfacts.2.1
          have hMle := hnfacts.2.2.2.1
          by_cases hns : node = s.start
          · rw [hns, if_pos rfl] at hfuel
            by_cases hwrap : node + T7.maskFree (s.buf node) = s.size
            · rw [if_pos hwrap]
              split <;> omega
            · rw [if_neg hwrap]
              split <;> omega
          · rw [if_neg hns] at hfuel
            by_cases hwrap : node + T7.maskFree (s.buf node) = s.size
            · rw [if_pos hwrap] at hexit ⊢
              simp only [Nat.zero_le, if_pos]
              rcases Nat.lt_or_ge node s.start with horder | horder
              · exfalso
                rcases hnfacts.2.2.2.2 s.start hstart (by omega) with h | h
                · omega
                · omega
              · rw [if_neg (by omega)] at hfuel
                omega
            · rw [if_neg hwrap] at hexit ⊢
              rcases Nat.lt_or_ge node s.start with horder | horder
              · have hnm : node + T7.maskFree (s.buf node) ≤ s.start := by
                  rcases hnfacts.2.2.2.2 s.start hstart (by omega) with h | h
                  · omega
                  · omega
                rw [if_pos (by omega : node ≤ s.start)] at hfuel
                rw [if_pos hnm]
                omega
              · rw [if_neg (by omega : ¬ node ≤ s.start)] at hfuel
                rw [if_neg (by omega :
                  ¬ node + T7.maskFree (s.buf node) ≤ s.start)]
                omega
        exact ih s l new_size
          (if node + T7.maskFree (s.buf node) = s.size then 0
           else node + T7.maskFree (s.buf node))
          hl hstart hN1mem hWn hnW hfuel1

theorem roundup_mod (n : Nat) : T7.roundup n % T7.W = 0 := by
  obtain ⟨c, hc⟩ := roundup_dvd n
  rw [hc, Nat.mul_mod_right]

theorem wf_iff (s : T7.StaticAllocator) :
    T7.wf s ↔ ∃ l, T7.nodes s = some l ∧ s.start ∈ l := by
  rw [T7.wf, T7.wfb]
  cases h : T7.nodes s with
  | none => simp
  | some l => simp

theorem static_grab_memory_spec (s : T7.StaticAllocator) (l : List Nat) (n : Nat)
    (hl : T7.nodes s = some l) (hstart : s.start ∈ l) :
    ∃ s2 res, T7.static_grab_memory s n = some (s2, res) ∧
      (∃ lf, T7.nodes s2 = some lf ∧ s2.start ∈ lf) ∧
      s2.size = s.size ∧ T7.Preserves s s2 ∧
      (res = none → T7.Evolves s s2) ∧
      (∀ p, res = some p → ∃ ob, p = ob + T7.W ∧
        T7.is_free (s2.buf ob) = false ∧
        T7.roundup n ≤ T7.maskFree (s2.buf ob) ∧
        ob ∈ l ∧ T7.is_free (s.buf ob) = true ∧ s2.start = ob ∧
        (∃ lf, T7.nodes s2 = some lf ∧ ob ∈ lf)) := by
  rw [T7.static_grab_memory]
  exact grabLoop_spec (s.size + 2) s l (T7.roundup n) s.start hl hstart hstart
    (roundup_pos n) (roundup_mod n) (by rw [if_pos rfl]; omega)

theorem merge_write_nodes (s : T7.StaticAllocator) (l : List Nat) (o : Nat)
    (hl : T7.nodes s = some l) (ho : o ∈ l) :
    ∃ m l1 l2 lm ld,
      T7.mergeSize s o (s.size + 1) (T7.maskFree (s.buf o)) = some m ∧
      l = l1 ++ o :: l2 ∧ (∀ b ∈ l1, b < o) ∧ l2 = ld ++ lm ∧
      (∀ b ∈ lm, o + m ≤ b) ∧
      T7.maskFree (s.buf o) ≤ m ∧ m % 2 = 0 ∧ m % T7.W = 0 ∧
      T7.W ≤ m ∧ o + m ≤ s.size ∧
      (o + m = s.size ∨ o + m ∈ lm) ∧
      T7.nodes (T7.writeHdr s o m) = some (l1 ++ o :: lm) := by
  rw [T7.nodes] at hl
  obtain ⟨l1, l2, hldec, hl1lt, hwo⟩ := walk_decompose s _ 0 l hl o ho
  obtain ⟨hoa, hosize, hw1, hw2, fuel2, hfeq, hwalk⟩ := walk_cons s _ o o l2 hwo
  have hwalk2 : T7.walk s (s.size + 1) (o + T7.maskFree (s.buf o)) = some l2 :=
    walk_fuel_ge s _ fuel2 (s.size + 1) _ hwalk
      (by have := walk_length s fuel2 _ _ hwalk; omega)
  have hk2 : T7.maskFree (s.buf o) % 2 = 0 := maskFree_even _
  have hkpos : 0 < T7.maskFree (s.buf o) := by have := W_pos; omega
  obtain ⟨m, lm, ld, hms, hkm, hm2, hmW, hwm, hsplit, hld, hlast⟩ :=
    mergeSize_spec s o (s.size + 1) (T7.maskFree (s.buf o)) l2 hwalk2 hkpos hk2
      hw2 (by omega)
  have homle : o + m ≤ s.size := by
    have := walk_length s (s.size + 1) _ _ hwm
    omega
  have hWm : T7.W ≤ m := by omega
  have hmaskm : T7.maskFree m = m := maskFree_of_even m hm2
  have hlm_ge : ∀ b ∈ lm, o + m ≤ b :=
    fun b hb => (walk_mem_bounds s (s.size + 1) _ lm hwm b hb).1
  have hwm1 : T7.walk (T7.writeHdr s o m) (s.size + 1) (o + m) = some lm := by
    apply walk_congr s (T7.writeHdr s o m) rfl _ _ lm hwm
    intro b hb
    have hble := walk_mem_bounds s (s.size + 1) _ lm hwm b hb
    rw [writeHdr_buf_other s o m b (by omega)]
  have hwalk1o : T7.walk (T7.writeHdr s o m) (s.size + 1) o = some (o :: lm) := by
    rw [T7.walk, if_neg (by rw [writeHdr_size]; omega : ¬ o = (T7.writeHdr s o m).size)]
    rw [if_pos (by rw [writeHdr_size, writeHdr_buf_self, hmaskm]; exact ⟨hosize, hWm, hmW⟩)]
    rw [writeHdr_buf_self, hmaskm]
    rw [walk_fuel_ge (T7.writeHdr s o m) _ (s.size + 1) s.size _ hwm1
      (by have := walk_length (T7.writeHdr s o m) (s.size + 1) _ _ hwm1
          rw [writeHdr_size] at this; omega)]
  refine ⟨m, l1, l2, lm, ld, hms, hldec, hl1lt, hsplit, hlm_ge, hkm, hm2,
    hmW, hWm, homle, ?_, ?_⟩
  · cases lm with
    | nil => exact Or.inl (walk_nil s (s.size + 1) _ hwm)
    | cons z lm1 =>
      obtain ⟨hz, _, _, _, _, _, _⟩ := walk_cons s _ _ z lm1 hwm
      exact Or.inr (by rw [← hz]; exact List.mem_cons_self z lm1)
  rw [T7.nodes, writeHdr_size]
  apply walk_reconstruct s (T7.writeHdr s o m) rfl l1 0 o l2 (o :: lm)
    (by rw [hldec] at hl; exact hl)
  · intro b hb
    rw [writeHdr_buf_other s o m b (by have := hl1lt b hb; omega)]
  · exact hwalk1o

theorem copy_memory_start (s : T7.StaticAllocator) (d src len : Nat) :
    (T7.copy_memory s d src len).start = s.start := rfl

theorem copy_memory_size (s : T7.StaticAllocator) (d src len : Nat) :
    (T7.copy_memory s d src len).size = s.size := rfl

theorem copy_memory_buf_in (s : T7.StaticAllocator) (d src len i : Nat)
    (h1 : d ≤ i) (h2 : i < d + len) :
    (T7.copy_memory s d src len).buf i = s.buf (src + (i - d)) := by
  rw [T7.copy_memory]
  simp only []
  rw [if_pos ⟨h1, h2⟩]

theorem copy_memory_buf_out (s : T7.StaticAllocator) (d src len i : Nat)
    (h : ¬ (d ≤ i ∧ i < d + len)) :
    (T7.copy_memory s d src len).buf i = s.buf i := by
  rw [T7.copy_memory]
  simp only []
  rw [if_neg h]

theorem static_resize_memory_spec (s : T7.StaticAllocator) (l : List Nat)
    (o n : Nat)
    (hl : T7.nodes s = some l) (hstart : s.start ∈ l) (ho : o ∈ l)
    (halloc : T7.is_free (s.buf o) = false) :
    ∃ s2 res, T7.static_resize_memory s (o + T7.W) n = some (s2, res) ∧
      T7.wf s2 ∧ s2.size = s.size ∧
      (res = none →
        s2.buf o = s.buf o ∧
        (∀ i, i < T7.maskFree (s.buf o) → s2.buf (o + i) = s.buf (o + i)) ∧
        (∃ lf, T7.nodes s2 = some lf ∧ o ∈ lf)) ∧
      (∀ q, res = some q →
        ∀ i, i < min (T7.maskFree (s.buf o) - T7.W) n →
          s2.buf (q + i) = s.buf (o + T7.W + i)) := by
  have hofacts := nodes_mem_facts s l o hl ho
  have hWpos := W_pos
  have hpW : o + T7.W - T7.W = o := by omega
  obtain ⟨m, l1, l2, lm, ld, hms, hldec, hl1lt, hsplit, hlmge, hkm, hm2, hmW,
    hWm, homle, hsuccmem, hnodes1⟩ := merge_write_nodes s l o hl ho
  rw [T7.static_resize_memory]
  simp only [hpW]
  rw [hms]
  dsimp only
  by_cases hfit : T7.roundup n ≤ m
  · -- in-place: combine nodes and allocate from the start
    rw [if_pos hfit]
    obtain ⟨s2, l3, halloc2eq, hn2, hst2, hsz2, hmem2, hsub2, hsup2, hallocflag,
      hfit2, hmle2, hframe2, hpay2⟩ :=
      allocate_node_spec (T7.writeHdr s o m) (l1 ++ o :: lm) o (T7.roundup n)
        hnodes1 (by simp) (by rw [writeHdr_buf_self]; exact hm2)
        (roundup_pos n) (roundup_mod n)
        (by rw [writeHdr_buf_self]; exact hfit)
    refine ⟨s2, some (o + T7.W), by rw [halloc2eq], ?_, ?_, ?_, ?_⟩
    · exact (wf_iff s2).mpr ⟨l3, hn2, by rw [hst2]; exact hmem2⟩
    · rw [hsz2, writeHdr_size]
    · intro h
      cases h
    · intro q hq i hi
      cases hq
      have hi_n : i < n := by omega
      have hrg := roundup_ge n
      have h1 : s2.buf (o + T7.W + i) = (T7.writeHdr s o m).buf (o + T7.W + i) :=
        hpay2 (o + T7.W + i) (by omega) (by omega)
      rw [h1, writeHdr_buf_other s o m _ (by omega)]
  · -- relocation
    rw [if_neg hfit]
    simp only [T7.relocate_node]
    obtain ⟨s1, gres, hgrab, hlf1, hsz1, hpres1, hnone1, hsome1⟩ :=
      static_grab_memory_spec s l n hl hstart
    rw [hgrab]
    obtain ⟨hszp, la, lb, hla, hlb, hcl⟩ := hpres1
    rw [hl] at hla
    cases hla
    obtain ⟨homem, hobytes⟩ := hcl o ho halloc
    have hbufo1 : s1.buf o = s.buf o := hobytes o (le_refl o) (by omega)
    cases gres with
    | none =>
      dsimp only
      obtain ⟨lf, hlfeq, hlfst⟩ := hlf1
      rw [hlb] at hlfeq
      cases hlfeq
      refine ⟨s1, none, rfl, (wf_iff s1).mpr ⟨lb, hlb, hlfst⟩, hsz1, ?_, ?_⟩
      · intro _
        refine ⟨hbufo1, ?_, lb, hlb, homem⟩
        intro i hi
        exact hobytes (o + i) (by omega) (by omega)
      · intro q hq
        cases hq
    | some q0 =>
      dsimp only
      obtain ⟨ob, hqW, hoballoc, hobfit, hobl, hobfree, hobst, lf, hlfeq, hoblf⟩ :=
        hsome1 q0 rfl
      rw [hlb] at hlfeq
      cases hlfeq
      obtain ⟨lfs, hlfseq, hlfsst⟩ := hlf1
      rw [hlb] at hlfseq
      cases hlfseq
      have hone : o ≠ ob := by
        intro h
        rw [← h] at hobfree
        rw [hobfree] at halloc
        cases halloc
      have hmasko1 : T7.maskFree (s1.buf o) = T7.maskFree (s.buf o) := by
        rw [hbufo1]
      have f1 := nodes_mem_facts s1 lb ob hlb hoblf
      have f2 := nodes_mem_facts s1 lb o hlb homem
      have hd1 := f1.2.2.2.2 o homem (by omega)
      have hd2 := f2.2.2.2.2 ob hoblf (by omega)
      have hsep : o + T7.maskFree (s.buf o) ≤ ob ∨
          ob + T7.maskFree (s1.buf ob) ≤ o := by
        rcases hd2 with h | h
        · rcases hd1 with h2 | h2
          · omega
          · exact Or.inr h2
        · rw [hmasko1] at h
          exact Or.inl h
      have hko := hofacts.2.1
      have hkob : T7.maskFree (s.buf o) ≤ T7.maskFree (s1.buf ob) := by
        have := roundup_ge n
        omega
      -- the copy target range sits inside the fresh node, past its header
      have hcopyrange : ∀ i, i < T7.maskFree (s.buf o) - T7.W →
          ob + T7.W ≤ q0 + i ∧ q0 + i < ob + T7.maskFree (s1.buf ob) := by
        intro i hi
        rw [hqW]
        omega
      -- the copy does not touch any node header
      have hn2 : T7.nodes (T7.copy_memory s1 q0 (o + T7.W)
          (T7.maskFree (s.buf o) - T7.W)) = some lb := by
        rw [T7.nodes, copy_memory_size]
        rw [T7.nodes] at hlb
        apply walk_congr s1 (T7.copy_memory s1 q0 (o + T7.W)
          (T7.maskFree (s.buf o) - T7.W)) rfl _ _ lb hlb
        intro b hb
        rw [copy_memory_buf_out]
        intro ⟨hb1, hb2⟩
        by_cases hbob : b = ob
        · rw [hbob, hqW] at hb1
          omega
        · have := f1.2.2.2.2 b hb hbob
          rw [hqW] at hb1 hb2
          rcases this with h | h
          · omega
          · omega
      -- release the old node from the copied state
      obtain ⟨s3, hrel, hn3, hst3, hsz3, hbuf3o, hbuf3⟩ :=
        static_release_memory_spec (T7.copy_memory s1 q0 (o + T7.W)
          (T7.maskFree (s.buf o) - T7.W)) lb o hn2
          homem (by rw [copy_memory_start, hobst]; exact hoblf)
      refine ⟨s3, some q0, by rw [hrel], (wf_iff s3).mpr ⟨lb, hn3, hst3⟩, ?_, ?_, ?_⟩
      · rw [hsz3, copy_memory_size, hsz1]
      · intro h
        cases h
      · intro q hq i hi
        cases hq
        have hilen : i < T7.maskFree (s.buf o) - T7.W := by omega
        have hrange := hcopyrange i hilen
        have hqio : q0 + i ≠ o := by
          rcases hsep with h | h
          · omega
          · omega
        rw [hbuf3 (q0 + i) hqio]
        rw [copy_memory_buf_in s1 q0 (o + T7.W) (T7.maskFree (s.buf o) - T7.W)
          (q0 + i) (by rw [hqW]; omega) (by rw [hqW]; omega)]
        have hsimp : o + T7.W + (q0 + i - q0) = o + T7.W + i := by omega
        rw [hsimp]
        exact hobytes (o + T7.W + i) (by omega) (by omega)

/- ------------------------------------------------------------------ -/
/- Claim theorems for the arena allocator                              -/
/- ------------------------------------------------------------------ -/

/-- Claim C9: from every well-formed arena state (buffer exactly partitioned
into valid nodes, start cursor on a node) and for every request size, the
circular scan of `static_grab_memory` terminates: the embedded loop completes
within its fuel bound of size+2 iterations, even when the lazy coalescing of
`get_size` merges away the node the start cursor points to mid-scan. -/
theorem grab_terminates_C9 (s : T7.StaticAllocator) (n : Nat)
    (hwf : T7.wf s) :
    ∃ r, T7.static_grab_memory s n = some r := by
  obtain ⟨l, hl, hstart⟩ := (wf_iff s).mp hwf
  obtain ⟨s2, res, heq, _⟩ := static_grab_memory_spec s l n hl hstart
  exact ⟨(s2, res), heq⟩

/-- Claim C5: a successful grab of n ≥ 1 bytes returns a pointer aligned to
the platform word, with at least n usable bytes past the node header, whose
region does not overlap any other currently-live allocated region of the
arena. -/
theorem grab_success_C5 (s : T7.StaticAllocator) (n : Nat)
    (s2 : T7.StaticAllocator) (p : Nat)
    (hwf : T7.wf s) (hn : 1 ≤ n)
    (h : T7.static_grab_memory s n = some (s2, some p)) :
    p % T7.W = 0 ∧
    n ≤ T7.maskFree (s2.buf (p - T7.W)) - T7.W ∧
    (p - T7.W) ∈ T7.liveNodes s2 ∧
    (∀ x ∈ T7.liveNodes s2, x ≠ p - T7.W →
      x + T7.maskFree (s2.buf x) ≤ p - T7.W ∨
      p - T7.W + T7.maskFree (s2.buf (p - T7.W)) ≤ x) := by
  obtain ⟨l, hl, hstart⟩ := (wf_iff s).mp hwf
  obtain ⟨s2a, res, heq, hlf, hsz, hpres, hnone, hsome⟩ :=
    static_grab_memory_spec s l n hl hstart
  rw [heq] at h
  cases h
  obtain ⟨ob, hpW, hoballoc, hobfit, hobl, hobfree, hobst, lf, hlfeq, hoblf⟩ :=
    hsome p rfl
  have hWpos := W_pos
  have hsub : p - T7.W = ob := by omega
  rw [hsub]
  have halign : ob % T7.W = 0 := by
    rw [T7.nodes] at hlfeq
    exact walk_align s2 _ 0 lf hlfeq (Nat.zero_mod _) ob hoblf
  have hlive : ∀ y, y ∈ T7.liveNodes s2 ↔
      y ∈ lf ∧ T7.is_free (s2.buf y) = false := by
    intro y
    rw [T7.liveNodes]
    rw [T7.nodes] at hlfeq
    rw [T7.nodes]
    rw [hlfeq]
    simp [List.mem_filter]
  refine ⟨?_, ?_, ?_, ?_⟩
  · rw [hpW, Nat.add_mod, halign, Nat.mod_self]
    simp
  · have := roundup_ge n
    omega
  · exact (hlive ob).mpr ⟨hoblf, hoballoc⟩
  · intro x hx hxne
    obtain ⟨hxlf, hxalloc⟩ := (hlive x).mp hx
    have f1 := (nodes_mem_facts s2 lf ob (by rw [T7.nodes]; rw [T7.nodes] at hlfeq; exact hlfeq) hoblf).2.2.2.2 x hxlf hxne
    have f2 := (nodes_mem_facts s2 lf x (by rw [T7.nodes]; rw [T7.nodes] at hlfeq; exact hlfeq) hxlf).2.2.2.2 ob hoblf (by omega)
    rcases f1 with h1 | h1
    · rcases f2 with h2 | h2
      · omega
      · exact Or.inl h2
    · exact Or.inr h1

/-- Claim C3: content written into an allocated region survives a successful
resize up to min(old usable size, requested size): the bytes at the returned
pointer agree with the bytes previously stored at the old pointer, whether
the resize was satisfied in place or via relocation. -/
theorem resize_preserves_content_C3 (s : T7.StaticAllocator) (l : List Nat)
    (o n : Nat) (s2 : T7.StaticAllocator) (q : Nat)
    (hl : T7.nodes s = some l) (hstart : s.start ∈ l) (ho : o ∈ l)
    (halloc : T7.is_free (s.buf o) = false)
    (h : T7.static_resize_memory s (o + T7.W) n = some (s2, some q)) :
    ∀ i, i < min (T7.maskFree (s.buf o) - T7.W) n →
      s2.buf (q + i) = s.buf (o + T7.W + i) := by
  obtain ⟨s2a, res, heq, hwf2, hsz2, hnone, hsome⟩ :=
    static_resize_memory_spec s l o n hl hstart ho halloc
  rw [heq] at h
  cases h
  exact hsome q rfl

/-- Claim C6: when a resize cannot be satisfied in place and the fresh
allocation attempted during relocation fails, resize returns NULL and the
old node is still allocated with its header word and payload bytes
unchanged (and still a node of the arena). -/
theorem resize_failure_C6 (s : T7.StaticAllocator) (l : List Nat)
    (o n : Nat) (s2 : T7.StaticAllocator)
    (hl : T7.nodes s = some l) (hstart : s.start ∈ l) (ho : o ∈ l)
    (halloc : T7.is_free (s.buf o) = false)
    (h : T7.static_resize_memory s (o + T7.W) n = some (s2, none)) :
    s2.buf o = s.buf o ∧ T7.is_free (s2.buf o) = false ∧
    (∀ i, i < T7.maskFree (s.buf o) → s2.buf (o + i) = s.buf (o + i)) ∧
    (∃ lf, T7.nodes s2 = some lf ∧ o ∈ lf) := by
  obtain ⟨s2a, res, heq, hwf2, hsz2, hnone, hsome⟩ :=
    static_resize_memory_spec s l o n hl hstart ho halloc
  rw [heq] at h
  cases h
  obtain ⟨hb, hbytes, hlf⟩ := hnone rfl
  exact ⟨hb, by rw [hb]; exact halloc, hbytes, hlf⟩

/-- Claim C10: every arena operation preserves the well-formedness invariant
`wf`: the buffer is exactly partitioned into nodes whose masked sizes are
nonzero multiples of the node-header size (so every node split leaves a
well-formed free remainder of at least header size, possibly with zero
payload bytes), and the start cursor points at a node.  Construction
establishes the invariant; grab, release and resize preserve it. -/
theorem wf_preserved_C10 :
    (∀ (buf0 : Nat → Nat) (size : Nat), size % 16 = 0 → 0 < size →
      T7.wf (T7.create_static_allocator_with_buffer buf0 size)) ∧
    (∀ (s : T7.StaticAllocator) (n : Nat) (s2 : T7.StaticAllocator)
      (res : Option Nat), T7.wf s →
      T7.static_grab_memory s n = some (s2, res) → T7.wf s2) ∧
    (∀ (s : T7.StaticAllocator) (l : List Nat) (o : Nat),
      T7.nodes s = some l → s.start ∈ l → o ∈ l →
      T7.wf (T7.static_release_memory s (o + T7.W))) ∧
    (∀ (s : T7.StaticAllocator) (l : List Nat) (o n : Nat)
      (s2 : T7.StaticAllocator) (res : Option Nat),
      T7.nodes s = some l → s.start ∈ l → o ∈ l →
      T7.is_free (s.buf o) = false →
      T7.static_resize_memory s (o + T7.W) n = some (s2, res) → T7.wf s2) := by
  refine ⟨?_, ?_, ?_, ?_⟩
  · intro buf0 size h16 hpos
    apply (wf_iff _).mpr
    refine ⟨[0], ?_, by
      have h0 : (T7.create_static_allocator_with_buffer buf0 size).start = 0 := rfl
      rw [h0]
      exact List.mem_singleton.mpr rfl⟩
    rw [T7.nodes]
    show T7.walk _ (size + 1) 0 = some [0]
    have hbuf0 : (T7.create_static_allocator_with_buffer buf0 size).buf 0 = size :=
      writeHdr_buf_self _ _ _
    have hms : T7.maskFree size = size := maskFree_of_even size (by omega)
    have hWs : T7.W ≤ size := by rw [T7.W]; omega
    have hsW : size % T7.W = 0 := by rw [T7.W]; omega
    rw [T7.walk]
    rw [if_neg (by show ¬ (0 : Nat) = size; omega)]
    rw [if_pos (by rw [hbuf0, hms]; exact ⟨hpos, hWs, hsW⟩)]
    rw [hbuf0, hms]
    show (match T7.walk _ size (0 + size) with
      | none => none
      | some l => some (0 :: l)) = some [0]
    have h1 : (0 : Nat) + size = size := by omega
    rw [h1]
    have hw : T7.walk (T7.create_static_allocator_with_buffer buf0 size)
        size size = some [] := walk_size _ size
    rw [hw]
  · intro s n s2 res hwf h
    obtain ⟨l, hl, hstart⟩ := (wf_iff s).mp hwf
    obtain ⟨s2a, resa, heq, hlf, _⟩ := static_grab_memory_spec s l n hl hstart
    rw [heq] at h
    cases h
    obtain ⟨lf, h1, h2⟩ := hlf
    exact (wf_iff s2).mpr ⟨lf, h1, h2⟩
  · intro s l o hl hstart ho
    obtain ⟨s2, heq, hn2, hst2, _⟩ := static_release_memory_spec s l o hl ho hstart
    rw [heq]
    exact (wf_iff s2).mpr ⟨l, hn2, hst2⟩
  · intro s l o n s2 res hl hstart ho halloc h
    obtain ⟨s2a, resa, heq, hwf2, _⟩ :=
      static_resize_memory_spec s l o n hl hstart ho halloc
    rw [heq] at h
    cases h
    exact hwf2

theorem old_grabLoop_spec :
    ∀ (fuel : Nat) (s : T7.StaticAllocator) (l : List Nat)
    (alloc_bytes node count : Nat),
    T7.nodes s = some l → node ∈ l → count ≤ 1 →
    (s.size - node) + (if count = 0 then s.size + 1 else 0) < fuel →
    ∃ s2 res cnt, T7Old.grabLoop fuel s alloc_bytes node count = some (s2, res, cnt) ∧
      (res = none → cnt = 1) ∧
      (∀ p, res = some p → ∃ ob, p = ob + T7.W ∧
        T7.is_free (s.buf ob) = true ∧
        ∃ m, T7.mergeSize s ob (s.size + 1) (T7.maskFree (s.buf ob)) = some m ∧
          alloc_bytes ≤ m) := by
  intro fuel
  induction fuel with
  | zero =>
    intro s l alloc_bytes node count _ _ _ hfuel
    exact absurd hfuel (Nat.not_lt_zero _)
  | succ fuel ih =>
    intro s l alloc_bytes node count hl hnode hcount hfuel
    have hnfacts := nodes_mem_facts s l node hl hnode
    have hWpos := W_pos
    simp only [T7Old.grabLoop]
    by_cases hstatus : s.buf node % 2 = 0
    · -- free node: the merge loop runs
      obtain ⟨m, l1, l2, lm, ld, hms, hldec, hl1lt, hsplit, hlmge, hkm, hm2,
        hmW, hWm, homle, hsuccmem, hnodes1⟩ := merge_write_nodes s l node hl hnode
      rw [if_pos hstatus, hms]
      dsimp only
      by_cases hfit : alloc_bytes ≤ m
      · rw [if_pos ⟨hstatus, hfit⟩]
        have hfree : T7.is_free (s.buf node) = true := (is_free_iff _).mpr hstatus
        by_cases hsplitc : node + alloc_bytes ≠ s.size ∧ alloc_bytes < m
        · rw [if_pos hsplitc]
          refine ⟨_, some (node + T7.W), count, rfl, ?_, ?_⟩
          · intro h
            cases h
          · intro p hp
            cases hp
            exact ⟨node, rfl, hfree, m, hms, hfit⟩
        · rw [if_neg hsplitc]
          refine ⟨_, some (node + T7.W), count, rfl, ?_, ?_⟩
          · intro h
            cases h
          · intro p hp
            cases hp
            exact ⟨node, rfl, hfree, m, hms, hfit⟩
      · rw [if_neg (by intro h; exact hfit h.2)]
        by_cases hend : node + m ≠ s.size
        · rw [if_pos hend]
          have hmem : node + m ∈ l := by
            rcases hsuccmem with h | h
            · exact absurd h hend
            · rw [hldec, hsplit]
              simp only [List.mem_append, List.mem_cons]
              exact Or.inr (Or.inr (Or.inr h))
          exact ih s l alloc_bytes (node + m) count hl hmem hcount
            (by split at hfuel <;> split <;> omega)
        · rw [if_neg hend]
          by_cases hc0 : count = 0
          · rw [if_pos hc0]
            have h0mem : 0 ∈ l := by
              rw [T7.nodes] at hl
              apply walk_zero_mem s _ _ hl
              omega
            exact ih s l alloc_bytes 0 (count + 1) hl h0mem (by omega)
              (by rw [if_pos hc0] at hfuel; rw [if_neg (by omega)]; omega)
          · rw [if_neg hc0]
            exact ⟨s, none, count, rfl, fun _ => by omega, fun p hp => by cases hp⟩
    · -- allocated node: skip
      rw [if_neg hstatus]
      dsimp only
      rw [if_neg (by intro h; exact hstatus h.1)]
      by_cases hend : node + T7.maskFree (s.buf node) ≠ s.size
      · rw [if_pos hend]
        have hmem : node + T7.maskFree (s.buf node) ∈ l := by
          rcases nodes_next_mem s l node hl hnode with h | h
          · exact absurd h hend
          · exact h
        have hMpos := hnfacts.2.1
        exact ih s l alloc_bytes (node + T7.maskFree (s.buf node)) count hl hmem
          hcount (by split at hfuel <;> split <;> omega)
      · rw [if_neg hend]
        by_cases hc0 : count = 0
        · rw [if_pos hc0]
          have h0mem : 0 ∈ l := by
            rw [T7.nodes] at hl
            apply walk_zero_mem s _ _ hl
            have := hnfacts.1
            omega
          exact ih s l alloc_bytes 0 (count + 1) hl h0mem (by omega)
            (by rw [if_pos hc0] at hfuel; rw [if_neg (by omega)]; omega)
        · rw [if_neg hc0]
          exact ⟨s, none, count, rfl, fun _ => by omega, fun p hp => by cases hp⟩

/-- Claim C1: for every well-formed arena state and every request size, the
older double-scan revision of `static_grab_memory` terminates with either a
pointer just past the header of a free node whose lazily-coalesced size
satisfies the rounded request, or a NULL result that is produced only in the
branch where the scan has already reached the end of the node table once
(the returned C `count` variable equals 1) and reaches it a second time:
the whole circular sequence is scanned twice before exhaustion is declared. -/
theorem old_grab_double_scan_C1 (s : T7.StaticAllocator) (n : Nat)
    (hwf : T7.wf s) :
    ∃ s2 res cnt, T7Old.static_grab_memory s n = some (s2, res, cnt) ∧
      (∀ p, res = some p → ∃ ob, p = ob + T7.W ∧
        T7.is_free (s.buf ob) = true ∧
        ∃ m, T7.mergeSize s ob (s.size + 1) (T7.maskFree (s.buf ob)) = some m ∧
          T7.roundup n ≤ m) ∧
      (res = none → cnt = 1) := by
  obtain ⟨l, hl, hstart⟩ := (wf_iff s).mp hwf
  have hsz := (nodes_mem_facts s l s.start hl hstart).1
  obtain ⟨s2, res, cnt, heq, hnone, hsome⟩ :=
    old_grabLoop_spec (2 * s.size + 3) s l (T7.roundup n) s.start 0 hl hstart
      (by omega) (by rw [if_pos rfl]; omega)
  exact ⟨s2, res, cnt, heq, hsome, hnone⟩

theorem wf_decide (s : T7.StaticAllocator) (h : T7.wfb s = true) : T7.wf s := h

/-- Witness for C9: the grab scan completes on a concrete well-formed arena. -/
theorem grab_terminates_C9_witness :
    T7.wf T7.exampleArena ∧
    (T7.static_grab_memory T7.exampleArena 1).isSome = true := by
  refine ⟨wf_decide _ (by decide), ?_⟩
  obtain ⟨r, hr⟩ := grab_terminates_C9 T7.exampleArena 1 (wf_decide _ (by decide))
  rw [hr]
  rfl

/-- Witness for C5: grabbing one byte from a concrete fresh arena returns the
word-aligned pointer 8. -/
theorem grab_success_C5_witness :
    T7.wf T7.exampleArena ∧ 1 ≤ 1 ∧
    T7.static_grab_memory T7.exampleArena 1 =
      some (T7.exampleGrabState, some 8) ∧
    8 % T7.W = 0 :=
  ⟨wf_decide _ (by decide), by decide, rfl,
    (grab_success_C5 T7.exampleArena 1 T7.exampleGrabState 8
      (wf_decide _ (by decide)) (by decide) rfl).1⟩

/-- Witness for C3: an in-place resize on a concrete arena preserves the
first payload byte. -/
theorem resize_preserves_content_C3_witness :
    T7.nodes T7.exampleArena2 = some [0, 16, 32] ∧
    T7.is_free (T7.exampleArena2.buf 0) = false ∧
    T7.exampleResizeState.buf (8 + 0) = T7.exampleArena2.buf (0 + T7.W + 0) :=
  ⟨by decide, by decide,
    resize_preserves_content_C3 T7.exampleArena2 [0, 16, 32] 0 4
      T7.exampleResizeState 8 (by decide) (by decide) (by decide) (by decide)
      rfl 0 (by decide)⟩

/-- Witness for C6: a failing resize on a concrete exhausted arena leaves the
old node header unchanged. -/
theorem resize_failure_C6_witness :
    T7.nodes T7.exampleArena2 = some [0, 16, 32] ∧
    T7.is_free (T7.exampleArena2.buf 0) = false ∧
    T7.exampleResizeFailState.buf 0 = T7.exampleArena2.buf 0 :=
  ⟨by decide, by decide,
    (resize_failure_C6 T7.exampleArena2 [0, 16, 32] 0 100
      T7.exampleResizeFailState (by decide) (by decide) (by decide) (by decide)
      rfl).1⟩

/-- Witness for C10: the invariant holds after concrete construction, grab,
release and resize operations. -/
theorem wf_preserved_C10_witness :
    T7.wf (T7.create_static_allocator_with_buffer (fun _ => 0) 16) ∧
    T7.wf T7.exampleGrabState ∧
    T7.wf (T7.static_release_memory T7.exampleArena2 (0 + T7.W)) ∧
    T7.wf T7.exampleResizeState :=
  ⟨wf_preserved_C10.1 (fun _ => 0) 16 (by decide) (by decide),
   wf_preserved_C10.2.1 T7.exampleArena 1 T7.exampleGrabState (some 8)
     (wf_decide _ (by decide)) rfl,
   wf_preserved_C10.2.2.1 T7.exampleArena2 [0, 16, 32] 0
     (by decide) (by decide) (by decide),
   wf_preserved_C10.2.2.2 T7.exampleArena2 [0, 16, 32] 0 4
     T7.exampleResizeState (some 8) (by decide) (by decide) (by decide)
     (by decide) rfl⟩

/-- Witness for C1: the older double-scan grab completes on a concrete
well-formed arena that cannot satisfy the request. -/
theorem old_grab_double_scan_C1_witness :
    T7.wf T7.exampleArena2 ∧
    (T7Old.static_grab_memory T7.exampleArena2 100).isSome = true := by
  refine ⟨wf_decide _ (by decide), ?_⟩
  obtain ⟨s2, res, cnt, heq, _⟩ :=
    old_grab_double_scan_C1 T7.exampleArena2 100 (wf_decide _ (by decide))
  rw [heq]
  rfl
